import Mathlib

/-!
# Verification of the Address-Work normalization engine

A shallow embedding, in Lean 4, of the heuristic U.S. address normalization
engine implemented in `address_standardizer.py` and
`address_standardizer_with_usps.py` (the latter file also contains an appended
single-column full-address parsing section).  Text is modelled as `List Char`
with ASCII case semantics (`Char.toUpper`, `Char.isAlpha`, ... act on the
Basic-Latin range, matching CPython's behaviour on the ASCII inputs the tool
processes).  Python regular-expression operations are embedded as explicit,
executable scanning functions whose determinisation (greedy quantifiers,
leftmost match, ordered alternation, word boundaries) follows the semantics
of the concrete patterns used by the source:

* `NON_ALNUM_RE  = [^\w\s#-]`            (character filter)
* `MULTISPACE_RE = \s+`                  (whitespace-run collapse)
* `POBOX_RE      = \bP\.?O\.?\s*BOX\b`   (ignore-case search / substitute)
* whole-word table substitution `\bLONG\b -> SHORT`
* trailing unit   `\b(DESIG)\.?\s*#?:?\s*([A-Z0-9-]+)$`   (ignore-case)
* mid-string unit `(?:,|\s)\s*(DESIG)\.?\s*#?:?\s*([A-Z0-9-]+)\b`
* ZIP             `(\d{5}(?:-\d{4})?)\b`

Scanning functions take an explicit fuel argument (always instantiated with
the length of the scanned list, which strictly bounds the number of steps) so
that every definition is structurally recursive and evaluates by `decide`.
-/

namespace AddrWork



/-! ## Character classes (Python `re` ASCII semantics) -/

/-- Python `\s`: whitespace characters (space, tab, newline, vertical tab,
form feed, carriage return). -/
def pyIsSpace (c : Char) : Bool :=
  c = ' ' || c = '\t' || c = '\n' || c = '\x0b' || c = '\x0c' || c = '\r'

/-- Python `\w`: alphanumeric or underscore. -/
def isWordChar (c : Char) : Bool :=
  c.isAlphanum || c = '_'

/-- The characters kept by `NON_ALNUM_RE.sub("", ·)`, i.e. the class
`[\w\s#-]`. -/
def keepChar (c : Char) : Bool :=
  isWordChar c || pyIsSpace c || c = '#' || c = '-'

/-- The character class `[A-Z0-9-]` under `re.IGNORECASE`, used for the
value part of a unit designator. -/
def isValueChar (c : Char) : Bool :=
  ('A' ≤ c && c ≤ 'Z') || ('a' ≤ c && c ≤ 'z') || c.isDigit || c = '-'

/-- Case-insensitive character comparison (ASCII). -/
def eqi (a b : Char) : Bool :=
  a.toUpper = b.toUpper

/-! ## List-of-characters primitives -/

/-- Python `str.strip()`: remove leading and trailing whitespace. -/
def pyStrip (l : List Char) : List Char :=
  ((l.dropWhile pyIsSpace).reverse.dropWhile pyIsSpace).reverse

/-- Python `str.upper()` (ASCII). -/
def pyUpper (l : List Char) : List Char :=
  l.map Char.toUpper

/-- `MULTISPACE_RE.sub(" ", ·)`: replace every maximal whitespace run by a
single space. -/
def collapseWS : List Char → List Char
  | [] => []
  | c :: rest =>
    match rest with
    | [] => if pyIsSpace c then [' '] else [c]
    | d :: _ =>
      if pyIsSpace c then
        (if pyIsSpace d then collapseWS rest else ' ' :: collapseWS rest)
      else c :: collapseWS rest

/-- Python `str.split(",")`: split at commas, keeping empty pieces. -/
def splitComma : List Char → List (List Char)
  | [] => [[]]
  | c :: rest =>
    if c = ',' then [] :: splitComma rest
    else
      match splitComma rest with
      | [] => [[c]]
      | p :: ps => (c :: p) :: ps

/-- Python `str.split()` (no argument): whitespace-separated tokens, no
empty tokens.  Fuel-driven; `pySplitWs` supplies enough fuel. -/
def pySplitWsF : Nat → List Char → List (List Char)
  | 0, _ => []
  | _ + 1, [] => []
  | fuel + 1, c :: rest =>
    if pyIsSpace c then pySplitWsF fuel rest
    else (c :: rest.takeWhile (fun x => !pyIsSpace x)) ::
      pySplitWsF fuel (rest.dropWhile (fun x => !pyIsSpace x))

def pySplitWs (l : List Char) : List (List Char) := pySplitWsF l.length l

/-- Python `str.replace(pat, rep)`: replace every (leftmost, non-overlapping)
occurrence of a non-empty `pat`. -/
def strReplaceF (pat rep : List Char) : Nat → List Char → List Char
  | 0, s => s
  | _ + 1, [] => []
  | fuel + 1, c :: rest =>
    if !pat.isEmpty && pat.isPrefixOf (c :: rest) then
      rep ++ strReplaceF pat rep fuel ((c :: rest).drop pat.length)
    else
      c :: strReplaceF pat rep fuel rest

def strReplace (pat rep s : List Char) : List Char := strReplaceF pat rep s.length s

/-- Python dict lookup on a table of string pairs. -/
def mapLookup (m : List (String × String)) (k : List Char) : Option (List Char) :=
  match m with
  | [] => none
  | e :: rest => if e.1.data = k then some e.2.data else mapLookup rest k

/-- `str.replace(",", " ")`. -/
def commaToSpace (l : List Char) : List Char :=
  l.map (fun c => if c = ',' then ' ' else c)

/-! ## Word boundaries and whole-word substitution -/

def wordAt : Option Char → Bool
  | none => false
  | some c => isWordChar c

/-- Python `\b` between two neighbouring positions (`none` = outside the
string). -/
def isBoundary (l r : Option Char) : Bool := wordAt l != wordAt r

/-- Does the literal word `pat` match at the head of `s`, with `\b` on both
sides (`prev` is the character just before `s`)? -/
def wordMatchAt (pat : List Char) (prev : Option Char) (s : List Char) : Bool :=
  match pat with
  | [] => false
  | p :: ps =>
    (p :: ps).isPrefixOf s && isBoundary prev (some p) &&
      isBoundary (some ((p :: ps).getLastD ' ')) ((s.drop (p :: ps).length).head?)

/-- `re.sub(r"\b<pat>\b", rep, ·)` for a literal `pat` (case-sensitive):
leftmost, non-overlapping matches, boundaries judged in the original
string. -/
def wordSubF (pat rep : List Char) : Nat → Option Char → List Char → List Char
  | 0, _, s => s
  | _ + 1, _, [] => []
  | fuel + 1, prev, c :: rest =>
    if wordMatchAt pat prev (c :: rest) then
      rep ++ wordSubF pat rep fuel (some (pat.getLastD ' ')) ((c :: rest).drop pat.length)
    else
      c :: wordSubF pat rep fuel (some c) rest

def wordSub (pat rep s : List Char) : List Char := wordSubF pat rep s.length none s

/-! ## The `POBOX_RE` pattern `\bP\.?O\.?\s*BOX\b` (ignore-case) -/

/-- Greedy optional literal character (`x?` where what follows can never
start with `x`). -/
def dropOpt (c : Char) (s : List Char) : List Char :=
  match s with
  | x :: rest => if x = c then rest else x :: rest
  | [] => []

/-- Length of a `POBOX_RE` match starting at the head of `s`, if any
(`prev` is the character before `s`). -/
def poMatchLen (prev : Option Char) (s : List Char) : Option Nat :=
  match s with
  | [] => none
  | p :: rest =>
    if eqi p 'P' && isBoundary prev (some p) then
      match dropOpt '.' rest with
      | o :: rest2 =>
        if eqi o 'O' then
          match (dropOpt '.' rest2).dropWhile pyIsSpace with
          | b :: o2 :: x :: tail =>
            if eqi b 'B' && eqi o2 'O' && eqi x 'X' &&
                isBoundary (some x) tail.head? then
              some (s.length - tail.length)
            else none
          | _ => none
        else none
      | [] => none
    else none

def poSearchF : Nat → Option Char → List Char → Bool
  | 0, _, _ => false
  | _ + 1, _, [] => false
  | fuel + 1, prev, c :: rest =>
    match poMatchLen prev (c :: rest) with
    | some _ => true
    | none => poSearchF fuel (some c) rest

/-- Truthiness of `POBOX_RE.search(s)`. -/
def poboxSearch (s : List Char) : Bool := poSearchF s.length none s

def poSubF : Nat → Option Char → List Char → List Char
  | 0, _, s => s
  | _ + 1, _, [] => []
  | fuel + 1, prev, c :: rest =>
    match poMatchLen prev (c :: rest) with
    | some k => "PO BOX".data ++ poSubF fuel (some 'X') ((c :: rest).drop k)
    | none => c :: poSubF fuel (some c) rest

/-- `POBOX_RE.sub("PO BOX", s)`. -/
def poboxSub (s : List Char) : List Char := poSubF s.length none s

/-! ## The ZIP pattern `(\d{5}(?:-\d{4})?)\b` -/

/-- Match the ZIP pattern at the head of `s`, returning the matched text.
The optional `-dddd` group is greedy; if the trailing `\b` then fails the
engine backtracks to the bare five digits. -/
def zipMatchAt (s : List Char) : Option (List Char) :=
  match s with
  | d1 :: d2 :: d3 :: d4 :: d5 :: rest =>
    if d1.isDigit && d2.isDigit && d3.isDigit && d4.isDigit && d5.isDigit then
      match rest with
      | '-' :: e1 :: e2 :: e3 :: e4 :: tail =>
        if e1.isDigit && e2.isDigit && e3.isDigit && e4.isDigit &&
            isBoundary (some e4) tail.head? then
          some [d1, d2, d3, d4, d5, '-', e1, e2, e3, e4]
        else if isBoundary (some d5) rest.head? then some [d1, d2, d3, d4, d5]
        else none
      | _ => if isBoundary (some d5) rest.head? then some [d1, d2, d3, d4, d5] else none
    else none
  | _ => none

def zipScanF : Nat → List Char → List Char → Option (List Char × List Char)
  | 0, _, _ => none
  | _ + 1, _, [] => none
  | fuel + 1, acc, c :: rest =>
    match zipMatchAt (c :: rest) with
    | some m => some (acc.reverse, m)
    | none => zipScanF fuel (c :: acc) rest

/-- `re.search` for the ZIP pattern: returns `(text before the match,
matched text)` for the leftmost match. -/
def zipScan (s : List Char) : Option (List Char × List Char) :=
  zipScanF s.length [] s

/-! ## Unit-designator matching

`trailing_unit_re = \b(DESIG)\.?\s*#?:?\s*([A-Z0-9-]+)$` and
`mid_unit_re = (?:,|\s)\s*(DESIG)\.?\s*#?:?\s*([A-Z0-9-]+)\b`, both
ignore-case, with `DESIG` the ordered alternation of `UNIT_DESIGNATORS`.
The character classes appearing between the designator and the value
(`.`, whitespace, `#`, `:`) are disjoint from the value class, so the
greedy left-to-right parse below is exactly what the backtracking engine
computes; only the trailing `\b` of the mid-string value needs genuine
backtracking (`pickValueAux`). -/

def UNIT_DESIGNATORS : List String :=
  ["APT", "APARTMENT", "UNIT", "STE", "SUITE", "FL", "FLOOR", "RM", "ROOM", "#"]

/-- Case-insensitive literal prefix match. -/
def ciStarts : List Char → List Char → Bool
  | [], _ => true
  | _ :: _, [] => false
  | p :: ps, c :: cs => eqi c p && ciStarts ps cs

/-- Does `\.?\s*#?:?\s*` consume all of `pre`? -/
def dTailEmpty (pre : List Char) : Bool :=
  ((((dropOpt '.' pre).dropWhile pyIsSpace |> dropOpt '#') |> dropOpt ':').dropWhile
    pyIsSpace).isEmpty

/-- Maximal trailing run of `[A-Z0-9-]`-class characters. -/
def trailingValueRun (t : List Char) : List Char :=
  (t.reverse.takeWhile isValueChar).reverse

/-- Try each designator (in alternation order) at the head of `s` for the
end-anchored pattern; return the designator and value group. -/
def trailingTry : List String → List Char → Option (String × List Char)
  | [], _ => none
  | d :: ds, s =>
    if ciStarts d.data s then
      let t := s.drop d.data.length
      let v := trailingValueRun t
      if !v.isEmpty && dTailEmpty (t.take (t.length - v.length)) then some (d, v)
      else trailingTry ds s
    else trailingTry ds s

/-- `trailing_unit_re.search`: leftmost start position wins; returns
`(text before the match, designator, value)`. -/
def trailingScanF : Nat → Option Char → List Char → List Char →
    Option (List Char × String × List Char)
  | 0, _, _, _ => none
  | _ + 1, _, _, [] => none
  | fuel + 1, prev, acc, c :: rest =>
    if isBoundary prev (some c) then
      match trailingTry UNIT_DESIGNATORS (c :: rest) with
      | some (d, v) => some (acc.reverse, d, v)
      | none => trailingScanF fuel (some c) (c :: acc) rest
    else trailingScanF fuel (some c) (c :: acc) rest

def trailingScan (s : List Char) : Option (List Char × String × List Char) :=
  trailingScanF s.length none [] s

/-- Greedy `([A-Z0-9-]+)\b`: `runRev` is the reversed candidate run, `after`
what follows it; shrink from the right until the `\b` holds. -/
def pickValueAux : List Char → List Char → Option (List Char × List Char)
  | [], _ => none
  | c :: rs, after =>
    if isBoundary (some c) after.head? then some ((c :: rs).reverse, after)
    else pickValueAux rs (c :: after)

/-- Match `\.?\s*#?:?\s*([A-Z0-9-]+)\b` at the head of `t`; return the value
group and the remainder after the whole match. -/
def midValue (t : List Char) : Option (List Char × List Char) :=
  let r5 := ((((dropOpt '.' t).dropWhile pyIsSpace |> dropOpt '#') |> dropOpt ':').dropWhile
    pyIsSpace)
  pickValueAux (r5.takeWhile isValueChar).reverse (r5.dropWhile isValueChar)

def midTry : List String → List Char → Option (String × List Char × List Char)
  | [], _ => none
  | d :: ds, s =>
    if ciStarts d.data s then
      match midValue (s.drop d.data.length) with
      | some (v, rem) => some (d, v, rem)
      | none => midTry ds s
    else midTry ds s

/-- `mid_unit_re.search`: returns `(text before the separator, designator,
value, text after the match)`. -/
def midScanF : Nat → List Char → List Char →
    Option (List Char × String × List Char × List Char)
  | 0, _, _ => none
  | _ + 1, _, [] => none
  | fuel + 1, acc, c :: rest =>
    if c = ',' || pyIsSpace c then
      match midTry UNIT_DESIGNATORS (rest.dropWhile pyIsSpace) with
      | some (d, v, rem) => some (acc.reverse, d, v, rem)
      | none => midScanF fuel (c :: acc) rest
    else midScanF fuel (c :: acc) rest

def midScan (s : List Char) : Option (List Char × String × List Char × List Char) :=
  midScanF s.length [] s

/-! ## Lookup tables (verbatim from the source, in insertion order) -/

/-- `SUFFIX_MAP` of `address_standardizer.py` (also the `SUFFIX_MAP` of the
appended single-column parser section, which lists the same ten entries). -/
def SUFFIX_MAP_std : List (String × String) := [
  ("STREET", "ST"), ("AVENUE", "AVE"), ("ROAD", "RD"), ("DRIVE", "DR"),
  ("BOULEVARD", "BLVD"), ("COURT", "CT"), ("LANE", "LN"), ("TERRACE", "TER"),
  ("PLACE", "PL"), ("CIRCLE", "CIR")]

/-- `SUFFIX_MAP` of `address_standardizer_with_usps.py` (main section). -/
def SUFFIX_MAP_usps : List (String × String) := [
  ("ALLEE", "ALY"), ("ALLEY", "ALY"), ("ALLY", "ALY"), ("ANEX", "ANX"), ("ANNEX", "ANX"),
  ("ARCADE", "ARC"), ("AVENUE", "AVE"), ("AVEN", "AVE"), ("AVN", "AVE"), ("BAYOU", "BYU"),
  ("BEACH", "BCH"), ("BEND", "BND"), ("BLUFF", "BLF"), ("BOULEVARD", "BLVD"), ("BOUL", "BLVD"),
  ("BRANCH", "BR"), ("BRIDGE", "BRG"), ("BROOK", "BRK"), ("BURG", "BG"), ("BYPASS", "BYP"),
  ("CAMP", "CP"), ("CANYON", "CYN"), ("CAPE", "CPE"), ("CAUSEWAY", "CSWY"), ("CENTER", "CTR"),
  ("CIRCLE", "CIR"), ("CLIFF", "CLF"), ("CLUB", "CLB"), ("COMMON", "CMN"), ("CORNER", "COR"),
  ("COURSE", "CRSE"), ("COURT", "CT"), ("COVE", "CV"), ("CREEK", "CRK"), ("CRESCENT", "CRES"),
  ("CROSSING", "XING"), ("DALE", "DL"), ("DAM", "DM"), ("DIVIDE", "DV"), ("DRIVE", "DR"),
  ("ESTATE", "EST"), ("EXPRESSWAY", "EXPY"), ("EXTENSION", "EXT"), ("FALLS", "FLS"),
  ("FERRY", "FRY"), ("FIELD", "FLD"), ("FLAT", "FLT"), ("FORD", "FRD"), ("FOREST", "FRST"),
  ("FORGE", "FGR"), ("FORWARD", "FWD"), ("GARDEN", "GDN"), ("GATEWAY", "GTWY"), ("GLEN", "GLN"),
  ("GREEN", "GRN"), ("GROVE", "GRV"), ("HARBOR", "HBR"), ("HAVEN", "HVN"), ("HEIGHTS", "HTS"),
  ("HIGHWAY", "HWY"), ("HILL", "HL"), ("HOLLOW", "HOLW"), ("INLET", "INLT"), ("ISLAND", "IS"),
  ("ISLE", "ISLE"), ("JUNCTION", "JCT"), ("KEY", "KY"), ("KNOLL", "KNL"), ("LAKE", "LK"),
  ("LANDING", "LNDG"), ("LANE", "LN"), ("LIGHT", "LGT"), ("LOAF", "LF"), ("LOCK", "LCK"),
  ("LODGE", "LDG"), ("LOOP", "LOOP"), ("MALL", "MALL"), ("MANOR", "MNR"), ("MEADOW", "MDW"),
  ("MILL", "ML"), ("MOUNT", "MT"), ("MOUNTAIN", "MTN"), ("NORTH", "N"), ("PARK", "PARK"),
  ("PARKWAY", "PKWY"), ("PASS", "PASS"), ("PASSAGE", "PSGE"), ("PATH", "PATH"), ("PIKE", "PIKE"),
  ("PINE", "PNE"), ("PLACE", "PL"), ("PLAZA", "PLZ"), ("POINT", "PT"), ("PORT", "PRT"),
  ("PRAIRIE", "PR"), ("RADIAL", "RADL"), ("RANCH", "RNCH"), ("RAPIDS", "RPD"), ("REST", "RST"),
  ("RIDGE", "RDG"), ("RIVER", "RIV"), ("ROAD", "RD"), ("ROW", "ROW"), ("RUN", "RUN"),
  ("SHORE", "SHR"), ("SPRING", "SPG"), ("SQUARE", "SQ"), ("STATION", "STA"),
  ("STRAVENUE", "STRA"), ("STREAM", "STRM"), ("STREET", "ST"), ("SUMMIT", "SMT"),
  ("TERRACE", "TER"), ("TRACE", "TRCE"), ("TRAIL", "TRL"), ("TUNNEL", "TUNL"),
  ("TURNPIKE", "TPKE"), ("UNION", "UN"), ("VALLEY", "VLY"), ("VIEW", "VW"),
  ("VILLAGE", "VLG"), ("VILLE", "VL"), ("WALK", "WALK"), ("WALL", "WALL"), ("WAY", "WAY"),
  ("WELL", "WL")]

/-- `DIR_MAP`, identical in all three copies. -/
def DIR_MAP : List (String × String) := [
  ("NORTH", "N"), ("SOUTH", "S"), ("EAST", "E"), ("WEST", "W"),
  ("NORTHEAST", "NE"), ("NORTHWEST", "NW"), ("SOUTHEAST", "SE"), ("SOUTHWEST", "SW"),
  ("N.", "N"), ("S.", "S"), ("E.", "E"), ("W.", "W")]

/-- The full `STATE_MAP` shared by `address_standardizer.py` and the main
section of `address_standardizer_with_usps.py`. -/
def STATE_MAP_full : List (String × String) := [
  ("ALABAMA", "AL"), ("ALASKA", "AK"), ("ARIZONA", "AZ"), ("ARKANSAS", "AR"),
  ("CALIFORNIA", "CA"), ("COLORADO", "CO"), ("CONNECTICUT", "CT"), ("DELAWARE", "DE"),
  ("DISTRICT OF COLUMBIA", "DC"), ("FLORIDA", "FL"), ("GEORGIA", "GA"), ("HAWAII", "HI"),
  ("IDAHO", "ID"), ("ILLINOIS", "IL"), ("INDIANA", "IN"), ("IOWA", "IA"), ("KANSAS", "KS"),
  ("KENTUCKY", "KY"), ("LOUISIANA", "LA"), ("MAINE", "ME"), ("MARYLAND", "MD"),
  ("MASSACHUSETTS", "MA"), ("MICHIGAN", "MI"), ("MINNESOTA", "MN"), ("MISSISSIPPI", "MS"),
  ("MISSOURI", "MO"), ("MONTANA", "MT"), ("NEBRASKA", "NE"), ("NEVADA", "NV"),
  ("NEW HAMPSHIRE", "NH"), ("NEW JERSEY", "NJ"), ("NEW MEXICO", "NM"), ("NEW YORK", "NY"),
  ("NORTH CAROLINA", "NC"), ("NORTH DAKOTA", "ND"), ("OHIO", "OH"), ("OKLAHOMA", "OK"),
  ("OREGON", "OR"), ("PENNSYLVANIA", "PA"), ("RHODE ISLAND", "RI"), ("SOUTH CAROLINA", "SC"),
  ("SOUTH DAKOTA", "SD"), ("TENNESSEE", "TN"), ("TEXAS", "TX"), ("UTAH", "UT"),
  ("VERMONT", "VT"), ("VIRGINIA", "VA"), ("WASHINGTON", "WA"), ("WEST VIRGINIA", "WV"),
  ("WISCONSIN", "WI"), ("WYOMING", "WY"), ("PUERTO RICO", "PR"), ("GUAM", "GU"),
  ("VIRGIN ISLANDS", "VI"), ("AMERICAN SAMOA", "AS")]

/-- The abbreviated `STATE_MAP` of the appended single-column parser section
of `address_standardizer_with_usps.py`. -/
def STATE_MAP_mini : List (String × String) := [
  ("ALABAMA", "AL"), ("ALASKA", "AK"), ("ARIZONA", "AZ"), ("ARKANSAS", "AR"),
  ("CALIFORNIA", "CA"), ("NEW YORK", "NY"), ("TEXAS", "TX"), ("FLORIDA", "FL"),
  ("ILLINOIS", "IL"), ("WASHINGTON", "WA")]

/-! ## The source functions -/

/-- `upper_and_cleanup`: identical in all three copies. -/
def upper_and_cleanup (text : List Char) : List Char :=
  if text.isEmpty then []
  else collapseWS ((pyUpper (pyStrip text)).filter keepChar)

/-- The cleaning step inside `standardize_state`:
`re.sub(r"[^\w\s]", "", s)`, then whitespace collapse, then strip. -/
def stateClean (s : List Char) : List Char :=
  pyStrip (collapseWS (s.filter (fun c => isWordChar c || pyIsSpace c)))

/-- `standardize_state`, parameterised by the `STATE_MAP` in scope. -/
def standardize_state (stateMap : List (String × String)) (state : List Char) : List Char :=
  if state.isEmpty then []
  else
    let s := pyUpper (pyStrip state)
    if s.length = 2 && s.all Char.isAlpha then s
    else
      match mapLookup stateMap (stateClean s) with
      | some v => v
      | none =>
        match mapLookup stateMap (strReplace " STATE".data [] (stateClean s)) with
        | some v => v
        | none => s

/-- `standardize_zip`: identical in all three copies. -/
def standardize_zip (zipCode : List Char) : List Char :=
  if zipCode.isEmpty then []
  else
    let z := zipCode.filter Char.isDigit
    if z.length = 9 then z.take 5 ++ '-' :: z.drop 5
    else if z.length = 5 then z
    else if !z.isEmpty then z
    else pyStrip zipCode

/-- The two substitution loops of `replace_suffixes_and_dirs` (dict
iteration in insertion order). -/
def applySubs (entries : List (String × String)) (s : List Char) : List Char :=
  entries.foldl (fun acc e => wordSub e.1.data e.2.data acc) s

/-- `replace_suffixes_and_dirs`, parameterised by the two tables. -/
def replace_suffixes_and_dirs (dirMap suffixMap : List (String × String))
    (s : List Char) : List Char :=
  if s.isEmpty then s
  else pyStrip (collapseWS (applySubs suffixMap (applySubs dirMap s)))

/-- `normalize_po_box` (only in `address_standardizer_with_usps.py`): PO-Box
substitution, drop periods, collapse, strip. -/
def normalize_po_box (address : List Char) : List Char :=
  if address.isEmpty then address
  else pyStrip (collapseWS ((poboxSub address).filter (fun c => !(c = '.'))))

/-- Canonicalise a matched designator:
`.upper().replace("APARTMENT","APT").replace("SUITE","STE")`, then bare
`#` becomes `APT`.  (The match is case-insensitive against the upper-case
literal, so upper-casing the matched text yields the literal itself.) -/
def canonDesig (d : String) : List Char :=
  let u2 := strReplace "SUITE".data "STE".data
    (strReplace "APARTMENT".data "APT".data d.data)
  if u2 = "#".data then "APT".data else u2

/-- `f"{designator} {value}"` with the value upper-cased. -/
def mkUnit (d : String) (v : List Char) : List Char :=
  canonDesig d ++ ' ' :: pyUpper v

/-- The text normalisation `extract_unit` performs before matching:
`address.replace(",", " ")`, collapse whitespace, strip. -/
def euPre (address : List Char) : List Char :=
  pyStrip (collapseWS (commaToSpace address))

/-- `extract_unit`: identical in all three copies. -/
def extract_unit (address : List Char) : List Char × Option (List Char) :=
  if address.isEmpty then ([], none)
  else
    let a := euPre address
    if poboxSearch a then (a, none)
    else
      match trailingScan a with
      | some (pre, d, v) => (pyStrip pre, some (mkUnit d v))
      | none =>
        match midScan a with
        | some (pre, d, v, rem) =>
          (pyStrip (collapseWS (pyStrip (pre ++ rem))), some (mkUnit d v))
        | none => (a, none)

/-- The normalized record (`{"address1": ..., "address2": ..., "city": ...,
"state": ..., "zip": ...}`). -/
structure AddressComponents where
  address1 : String
  address2 : String
  city : String
  state : String
  zip : String
deriving DecidableEq, Repr

/-- What distinguishes the three copies of the engine: the tables in scope,
and whether the PO-Box branch collapses whitespace immediately
(`normalize_po_box`) or inline (`POBOX_RE.sub(...).replace(".", "")`). -/
structure Config where
  dirMap : List (String × String)
  suffixMap : List (String × String)
  stateMap : List (String × String)
  poCollapse : Bool

/-- The branch of the normalizer that fixes the street line and possibly
adopts an extracted unit: PO-Box normalisation (in the `cfg.poCollapse`
style of the copy at hand), else unit extraction when no unit was supplied,
else pass-through. -/
def stdStep (cfg : Config) (a1 a2 : List Char) : List Char × List Char :=
  if poboxSearch a1 then
    ((if cfg.poCollapse then normalize_po_box a1
      else (poboxSub a1).filter (fun c => !(c = '.'))), a2)
  else if a2.isEmpty then
    ((extract_unit a1).1, ((extract_unit a1).2).getD a2)
  else (a1, a2)

/-- The unit-line canonicalisation
`a2.replace("APARTMENT", "APT").replace("SUITE", "STE")` plus whitespace
collapse, applied only to a non-empty unit. -/
def stdA2Canon (b2 : List Char) : List Char :=
  if b2.isEmpty then b2
  else pyStrip (collapseWS (strReplace "SUITE".data "STE".data
    (strReplace "APARTMENT".data "APT".data b2)))

/-- `standardize_address_components_local`, parameterised by `Config`. -/
def standardize_address_components_local (cfg : Config)
    (address1 address2 city state zipCode : String) : AddressComponents :=
  let p := stdStep cfg (upper_and_cleanup address1.data)
    (if address2 = "" then [] else upper_and_cleanup address2.data)
  { address1 := ⟨pyStrip (collapseWS
      (replace_suffixes_and_dirs cfg.dirMap cfg.suffixMap p.1))⟩
    address2 := ⟨pyStrip (collapseWS
      (if (stdA2Canon p.2).isEmpty then stdA2Canon p.2
       else replace_suffixes_and_dirs cfg.dirMap cfg.suffixMap (stdA2Canon p.2)))⟩
    city := ⟨upper_and_cleanup city.data⟩
    state := ⟨standardize_state cfg.stateMap state.data⟩
    zip := ⟨standardize_zip zipCode.data⟩ }

/-- The engine as defined in `address_standardizer.py` (lines 38-176). -/
def cfgStd : Config :=
  { dirMap := DIR_MAP, suffixMap := SUFFIX_MAP_std, stateMap := STATE_MAP_full,
    poCollapse := false }

/-- The engine as defined in the main section of
`address_standardizer_with_usps.py` (lines 56-238). -/
def cfgUsps : Config :=
  { dirMap := DIR_MAP, suffixMap := SUFFIX_MAP_usps, stateMap := STATE_MAP_full,
    poCollapse := true }

/-- The engine as redefined in the appended single-column parser section of
`address_standardizer_with_usps.py` (lines 572-702); this is what
`parse_full_address` calls at runtime. -/
def cfgParser : Config :=
  { dirMap := DIR_MAP, suffixMap := SUFFIX_MAP_std, stateMap := STATE_MAP_mini,
    poCollapse := false }

/-! ## `parse_full_address` (appended single-column parser section) -/

/-- `s.replace("\n", " ").replace("\r", " ")`. -/
def nlToSpace (l : List Char) : List Char :=
  l.map (fun c => if c = '\n' || c = '\r' then ' ' else c)

/-- The body of the `try:` block of `parse_full_address`: heuristically
partition the pre-processed text `s` (with its comma segments `parts`) into
raw `(street, unit, city, state, zip)`.  Every Python primitive used inside
the block (`re.search` on `str`, slicing, `split`, `join`, `strip`,
`extract_unit`) is total and raises on no `str` input, so the partition is
modelled in `Except` with an error channel that is never populated. -/
def pfaPartition (s : List Char) (parts : List (List Char)) :
    Except String (List Char × List Char × List Char × List Char × List Char) :=
  Except.ok (
    if 3 ≤ parts.length then
      let streetPart := List.intercalate [',', ' '] (parts.take (parts.length - 2))
      let cityPart := (parts.get? (parts.length - 2)).getD []
      let szPart := (parts.get? (parts.length - 1)).getD []
      let zs := zipScan szPart
      let zipc := match zs with | some (_, m) => m | none => []
      let statePart := match zs with | some (b, _) => pyStrip b | none => pyStrip szPart
      let eu := extract_unit streetPart
      (eu.1, (eu.2).getD [], cityPart, statePart, zipc)
    else if parts.length = 2 then
      let streetPart := (parts.get? 0).getD []
      let right := (parts.get? 1).getD []
      let zs := zipScan right
      let zipc := match zs with | some (_, m) => m | none => []
      let withoutZip := match zs with | some (b, _) => pyStrip b | none => right
      let tokens := pySplitWs withoutZip
      let state := if tokens.isEmpty then [] else tokens.getLastD []
      let city :=
        if tokens.isEmpty then withoutZip
        else pyStrip (List.intercalate [' '] tokens.dropLast)
      let eu := extract_unit streetPart
      (eu.1, (eu.2).getD [], city, state, zipc)
    else
      let zs := zipScan s
      let zipc := match zs with | some (_, m) => m | none => []
      let beforeZip := match zs with | some (b, _) => pyStrip b | none => s
      let tokens := pySplitWs beforeZip
      if tokens.all (fun t => !t.any Char.isDigit) then
        (beforeZip, [], [], [], zipc)
      else
        let lastTok := tokens.getLastD []
        if 3 ≤ tokens.length &&
            (lastTok.length = 2 || (!lastTok.isEmpty && lastTok.all Char.isAlpha)) then
          (List.intercalate [' '] (tokens.take (tokens.length - 2)), [], [], lastTok, zipc)
        else
          (beforeZip, [], [], [], zipc))

/-- The pre-processing of `parse_full_address`: strip, normalise line
breaks to spaces, collapse whitespace, strip. -/
def pfaPre (full : String) : List Char :=
  pyStrip (collapseWS (nlToSpace (pyStrip full.data)))

/-- `parts = [p.strip() for p in s.split(",") if p.strip()]`. -/
def pfaParts (s : List Char) : List (List Char) :=
  ((splitComma s).map pyStrip).filter (fun p => !p.isEmpty)

/-- The final normalisation pass of `parse_full_address`: the partition fed
through the appended copy of the normalizer, then read back as a 5-tuple
with empty-string defaults. -/
def pfaNormalize (p : List Char × List Char × List Char × List Char × List Char) :
    String × String × String × String × String :=
  let n := standardize_address_components_local cfgParser
    ⟨p.1⟩ ⟨p.2.1⟩ ⟨p.2.2.1⟩ ⟨p.2.2.2.1⟩ ⟨p.2.2.2.2⟩
  (n.address1, n.address2, n.city, n.state, n.zip)

/-- `parse_full_address` of the appended single-column parser section.  At
runtime it resolves `extract_unit` and
`standardize_address_components_local` to the appended re-definitions,
i.e. to the `cfgParser` tables. -/
def parse_full_address (full : String) : String × String × String × String × String :=
  if full = "" then ("", "", "", "", "")
  else
    match pfaPartition (pfaPre full) (pfaParts (pfaPre full)) with
    | Except.error _ => ("", "", "", "", "")
    | Except.ok p => pfaNormalize p

/-! ## Claim C7: the Lexical Cleaner -/

/-- Whitespace-run collapsing as the spec describes it, carrying a flag that
records whether the previous kept character was whitespace. -/
def specCollapseGo : Bool → List Char → List Char
  | _, [] => []
  | afterSpace, c :: rest =>
    if pyIsSpace c then
      (if afterSpace then specCollapseGo true rest else ' ' :: specCollapseGo true rest)
    else c :: specCollapseGo false rest

def specCollapse (l : List Char) : List Char := specCollapseGo false l

/-- Modelled from the spec (claim C7 wording): trim surrounding whitespace,
upper-case, remove every character that is not alphanumeric, whitespace,
`#`, or `-` — in particular remove underscores — then collapse whitespace
runs to a single space. -/
def cleanerSpec (s : String) : String :=
  ⟨specCollapse (((pyStrip s.data).map Char.toUpper).filter
    (fun c => c.isAlphanum || pyIsSpace c || c = '#' || c = '-'))⟩

/-- The spec cleaner with the amended keep-set: underscores are also kept,
because the code's filter class `[^\w\s#-]` puts `_` (part of `\w`) among
the kept characters. -/
def cleanerSpecAmended (s : String) : String :=
  ⟨specCollapse (((pyStrip s.data).map Char.toUpper).filter
    (fun c => c.isAlphanum || c = '_' || pyIsSpace c || c = '#' || c = '-'))⟩

/-- Validity of a state table for idempotence: every value is a 2-letter
upper-case code. -/
def stateMapOK (m : List (String × String)) : Bool :=
  m.all (fun e => e.2.data.length = 2 && e.2.data.all (fun c => c.isUpper))

/-! ## Claim C2: the `AddressComponents` invariant -/

/-- A character that can appear in a normalized text field: in the cleaner's
keep-class `[\w\s#-]`, and upper-case if it is a letter. -/
def goodChar (c : Char) : Prop := keepChar c = true ∧ (c.isAlpha = true → c.isUpper = true)

/-- A normalized text field: every character is a `goodChar`. -/
def goodText (l : List Char) : Prop := ∀ c ∈ l, goodChar c

/-- Decidable form of `goodText`, for checking the substitution tables. -/
def goodTextB (l : List Char) : Bool :=
  l.all (fun c => keepChar c && (!c.isAlpha || c.isUpper))

/-! ## Basic char lemmas -/

theorem toNat_ofNat_valid {n : Nat} (h : n.isValidChar) : (Char.ofNat n).toNat = n := by
  rw [Char.ofNat, dif_pos h]; rfl

theorem toUpper_toNat (c : Char) :
    (Char.toUpper c).toNat = (if 97 ≤ c.toNat ∧ c.toNat ≤ 122 then c.toNat - 32 else c.toNat) := by
  unfold Char.toUpper
  by_cases h : 97 ≤ c.toNat ∧ c.toNat ≤ 122
  · rw [if_pos, if_pos h]
    · exact toNat_ofNat_valid (Or.inl (by omega))
    · exact h
  · rw [if_neg, if_neg h]
    exact h

theorem char_eq_iff_toNat {c d : Char} : c = d ↔ c.toNat = d.toNat := by
  constructor
  · rintro rfl; rfl
  · intro h
    apply Char.ext
    exact UInt32.toNat.inj h

theorem char_le_iff_toNat {c d : Char} : c ≤ d ↔ c.toNat ≤ d.toNat := by
  rw [Char.le_def]
  exact Iff.rfl

theorem isUpper_iff_toNat {c : Char} : c.isUpper = true ↔ 65 ≤ c.toNat ∧ c.toNat ≤ 90 := by
  simp only [Char.isUpper, Bool.and_eq_true, decide_eq_true_eq, ge_iff_le]
  constructor
  · rintro ⟨h1, h2⟩
    exact ⟨h1, h2⟩
  · rintro ⟨h1, h2⟩
    exact ⟨h1, h2⟩

theorem isLower_iff_toNat {c : Char} : c.isLower = true ↔ 97 ≤ c.toNat ∧ c.toNat ≤ 122 := by
  simp only [Char.isLower, Bool.and_eq_true, decide_eq_true_eq, ge_iff_le]
  constructor
  · rintro ⟨h1, h2⟩
    exact ⟨h1, h2⟩
  · rintro ⟨h1, h2⟩
    exact ⟨h1, h2⟩

theorem isDigit_iff_toNat {c : Char} : c.isDigit = true ↔ 48 ≤ c.toNat ∧ c.toNat ≤ 57 := by
  simp only [Char.isDigit, Bool.and_eq_true, decide_eq_true_eq, ge_iff_le]
  constructor
  · rintro ⟨h1, h2⟩
    exact ⟨h1, h2⟩
  · rintro ⟨h1, h2⟩
    exact ⟨h1, h2⟩

theorem toUpper_toUpper (c : Char) : c.toUpper.toUpper = c.toUpper := by
  apply char_eq_iff_toNat.mpr
  rw [toUpper_toNat, toUpper_toNat c]
  by_cases h : 97 ≤ c.toNat ∧ c.toNat ≤ 122
  · rw [if_pos h, if_neg (by omega)]
  · rw [if_neg h, if_neg h]

theorem not_isLower_toUpper (c : Char) : c.toUpper.isLower = false := by
  rw [Bool.eq_false_iff]
  intro h
  rw [isLower_iff_toNat, toUpper_toNat] at h
  by_cases hc : 97 ≤ c.toNat ∧ c.toNat ≤ 122
  · rw [if_pos hc] at h; omega
  · rw [if_neg hc] at h; omega

theorem isUpper_toUpper_of_isAlpha {c : Char} (h : c.toUpper.isAlpha = true) :
    c.toUpper.isUpper = true := by
  rcases Bool.or_eq_true_iff.mp (by simpa [Char.isAlpha] using h) with hu | hl
  · exact hu
  · rw [not_isLower_toUpper] at hl
    exact absurd hl (by simp)

theorem pyIsSpace_iff_toNat {c : Char} :
    pyIsSpace c = true ↔
      c.toNat = 32 ∨ c.toNat = 9 ∨ c.toNat = 10 ∨ c.toNat = 11 ∨ c.toNat = 12 ∨ c.toNat = 13 := by
  simp only [pyIsSpace, Bool.or_eq_true, decide_eq_true_eq, char_eq_iff_toNat,
    show (' ' : Char).toNat = 32 from rfl, show ('\t' : Char).toNat = 9 from rfl,
    show ('\n' : Char).toNat = 10 from rfl, show ('\x0b' : Char).toNat = 11 from rfl,
    show ('\x0c' : Char).toNat = 12 from rfl, show ('\r' : Char).toNat = 13 from rfl]
  tauto

theorem pyIsSpace_toUpper (c : Char) : pyIsSpace c.toUpper = pyIsSpace c := by
  by_cases h : 97 ≤ c.toNat ∧ c.toNat ≤ 122
  · have h1 : (Char.toUpper c).toNat = c.toNat - 32 := by rw [toUpper_toNat, if_pos h]
    have h2 : pyIsSpace c.toUpper = false := by
      rw [Bool.eq_false_iff]
      intro hs
      rcases pyIsSpace_iff_toNat.mp hs with h' | h' | h' | h' | h' | h' <;> omega
    have h3 : pyIsSpace c = false := by
      rw [Bool.eq_false_iff]
      intro hs
      rcases pyIsSpace_iff_toNat.mp hs with h' | h' | h' | h' | h' | h' <;> omega
    rw [h2, h3]
  · have h1 : Char.toUpper c = c := by
      apply char_eq_iff_toNat.mpr
      rw [toUpper_toNat, if_neg h]
    rw [h1]

/-! ## Claim C1: full-address split, end-to-end -/

/-- C1 (corrected): on the spec's end-to-end example the splitter sees FOUR
comma segments, so `parts[:-2]` joins the first two segments into the street
portion and `Smallville` ends up inside the street line, `Illinois` becomes
the city, and the state is empty.  This theorem records the value the code
actually computes. -/
theorem C1_amended_parse_full_address :
    parse_full_address "456 Elm St Apt 4B, Smallville, Illinois, 60606-1234" =
      ("456 ELM ST SMALLVILLE", "APT 4B", "ILLINOIS", "", "60606-1234") := by
  decide

/-- C1 counterexample: the claimed output (street `456 ELM ST`, city
`SMALLVILLE`, state `IL`) is not what `parse_full_address` returns on the
claimed input. -/
theorem C1_counterexample :
    parse_full_address "456 Elm St Apt 4B, Smallville, Illinois, 60606-1234" ≠
      ("456 ELM ST", "APT 4B", "SMALLVILLE", "IL", "60606-1234") := by
  decide

/-! ## Claim C5: the three ZIP test equalities -/

/-- C5 counterexample: `standardize_zip("abc")` strips the non-digits,
leaving the empty digit string, and then falls back to the *original
trimmed input* `"abc"`, not to the empty string claimed by the spec. -/
theorem C5_counterexample : (⟨standardize_zip "abc".data⟩ : String) ≠ "" := by
  decide

/-- C5 (corrected): the first two spec equalities hold; on `"abc"` the
function returns `"abc"` (pass-through of the trimmed input). -/
theorem C5_amended_zip_tests :
    (⟨standardize_zip "123456789".data⟩ : String) = "12345-6789" ∧
    (⟨standardize_zip "12345".data⟩ : String) = "12345" ∧
    (⟨standardize_zip "abc".data⟩ : String) = "abc" := by
  refine ⟨by decide, by decide, by decide⟩

theorem collapseWS_single (c : Char) :
    collapseWS [c] = if pyIsSpace c then [' '] else [c] := rfl

theorem collapseWS_cons_cons (c d : Char) (ds : List Char) :
    collapseWS (c :: d :: ds) =
      if pyIsSpace c then
        (if pyIsSpace d then collapseWS (d :: ds) else ' ' :: collapseWS (d :: ds))
      else c :: collapseWS (d :: ds) := rfl

theorem specCollapseGo_cons (b : Bool) (c : Char) (rest : List Char) :
    specCollapseGo b (c :: rest) =
      if pyIsSpace c then
        (if b then specCollapseGo true rest else ' ' :: specCollapseGo true rest)
      else c :: specCollapseGo false rest := rfl

theorem collapseWS_space_head {c : Char} (h : pyIsSpace c = true) (rest : List Char) :
    collapseWS (c :: rest) = collapseWS (' ' :: rest) := by
  cases rest with
  | nil =>
    rw [collapseWS_single, collapseWS_single, h]
    simp [show pyIsSpace ' ' = true from by decide]
  | cons d ds =>
    rw [collapseWS_cons_cons, collapseWS_cons_cons, h]
    simp [show pyIsSpace ' ' = true from by decide]

theorem specCollapseGo_eq (l : List Char) :
    specCollapseGo false l = collapseWS l ∧
      ' ' :: specCollapseGo true l = collapseWS (' ' :: l) := by
  induction l with
  | nil => exact ⟨rfl, by decide⟩
  | cons c rest ih =>
    constructor
    · by_cases hc : pyIsSpace c = true
      · have h1 : specCollapseGo false (c :: rest) = ' ' :: specCollapseGo true rest := by
          simp [specCollapseGo, hc]
        rw [h1, ih.2, ← collapseWS_space_head hc]
      · have hc' : pyIsSpace c = false := by simpa using hc
        have h1 : specCollapseGo false (c :: rest) = c :: specCollapseGo false rest := by
          rw [specCollapseGo_cons, hc']; simp
        cases rest with
        | nil => rw [h1, collapseWS_single, hc']; simp [specCollapseGo]
        | cons d ds => rw [h1, ih.1, collapseWS_cons_cons, hc']; simp
    · by_cases hc : pyIsSpace c = true
      · have h1 : specCollapseGo true (c :: rest) = specCollapseGo true rest := by
          rw [specCollapseGo_cons, hc]; simp
        have h2 : collapseWS (' ' :: c :: rest) = collapseWS (c :: rest) := by
          rw [collapseWS_cons_cons, hc]
          simp [show pyIsSpace ' ' = true from by decide]
        rw [h1, h2, collapseWS_space_head hc, ← ih.2]
      · have hc' : pyIsSpace c = false := by simpa using hc
        have h2 : collapseWS (' ' :: c :: rest) = ' ' :: collapseWS (c :: rest) := by
          rw [collapseWS_cons_cons, hc']
          simp [show pyIsSpace ' ' = true from by decide]
        have h3 : specCollapseGo true (c :: rest) = c :: specCollapseGo false rest := by
          rw [specCollapseGo_cons, hc']; simp
        rw [h2, h3]
        cases rest with
        | nil => rw [collapseWS_single, hc']; simp [specCollapseGo]
        | cons d ds => rw [ih.1, collapseWS_cons_cons, hc']; simp

theorem specCollapse_eq_collapseWS (l : List Char) : specCollapse l = collapseWS l :=
  (specCollapseGo_eq l).1

theorem keepChar_eq_amendedPred (c : Char) :
    keepChar c = (c.isAlphanum || c = '_' || pyIsSpace c || c = '#' || c = '-') := by
  simp [keepChar, isWordChar, Bool.or_assoc]

/-- C7 counterexample: the code keeps underscores (the filter class is
`[^\w\s#-]` and `\w` contains `_`), while the claim's cleaner removes
them. -/
theorem C7_counterexample :
    (⟨upper_and_cleanup "_".data⟩ : String) = "_" ∧ cleanerSpec "_" = "" := by
  refine ⟨by decide, by decide⟩

/-- C7 (corrected): `upper_and_cleanup` is extensionally the spec's cleaner
chain — trim, upper-case, keep only alphanumerics, underscore, whitespace,
`#`, `-`, collapse whitespace runs — with underscores kept, not removed. -/
theorem C7_amended_cleaner (s : String) :
    (⟨upper_and_cleanup s.data⟩ : String) = cleanerSpecAmended s := by
  apply congrArg String.mk
  show upper_and_cleanup s.data = _
  rw [upper_and_cleanup]
  have hp : (fun c => c.isAlphanum || c = '_' || pyIsSpace c || c = '#' || c = '-') = keepChar :=
    funext fun c => (keepChar_eq_amendedPred c).symm
  by_cases h : s.data.isEmpty
  · have hd : s.data = [] := by simpa [List.isEmpty_iff] using h
    simp [hd, cleanerSpecAmended, pyStrip, specCollapse, specCollapseGo]
  · have h' : s.data.isEmpty = false := by simpa using h
    simp only [h', Bool.false_eq_true, if_false, cleanerSpecAmended, hp,
      specCollapse_eq_collapseWS, pyUpper]

/-! ## Claim C6: state-standardizer fallback -/

/-- C6 counterexample: `"X.Y.Z."` is non-empty, not a 2-letter alphabetic
code, and its cleaned form `"XYZ"` is in the table neither directly nor
after removing a `" STATE"` suffix; yet `standardize_state` returns the
*uncleaned* trimmed-uppercased input `"X.Y.Z."` (periods intact), not the
cleaned-but-untranslated `"XYZ"` the claim describes. -/
theorem C6_counterexample :
    stateClean (pyUpper (pyStrip "X.Y.Z.".data)) = "XYZ".data ∧
    mapLookup STATE_MAP_full "XYZ".data = none ∧
    mapLookup STATE_MAP_full (strReplace " STATE".data [] "XYZ".data) = none ∧
    standardize_state STATE_MAP_full "X.Y.Z.".data = "X.Y.Z.".data ∧
    "X.Y.Z.".data ≠ "XYZ".data := by
  refine ⟨by decide, by decide, by decide, by decide, by decide⟩

/-- C6 (corrected): when the input is non-empty, not a 2-letter alphabetic
code, and both table lookups on the cleaned form fail, `standardize_state`
returns the trimmed upper-cased input verbatim (punctuation *not*
stripped). -/
theorem C6_amended_passthrough (st : String) (h0 : st ≠ "")
    (h1 : ((pyUpper (pyStrip st.data)).length = 2 &&
      (pyUpper (pyStrip st.data)).all Char.isAlpha) = false)
    (h2 : mapLookup STATE_MAP_full (stateClean (pyUpper (pyStrip st.data))) = none)
    (h3 : mapLookup STATE_MAP_full
      (strReplace " STATE".data [] (stateClean (pyUpper (pyStrip st.data)))) = none) :
    standardize_state STATE_MAP_full st.data = pyUpper (pyStrip st.data) := by
  have hl : st.data.isEmpty = false := by
    rcases st with ⟨l⟩
    cases l with
    | nil => exact absurd rfl h0
    | cons c cs => rfl
  rw [standardize_state, hl]
  simp only [Bool.false_eq_true, if_false, h1, h2, h3]

/-- C6 witness: the amended theorem applied at `"X.Y.Z."`. -/
theorem C6_amended_passthrough_witness :
    standardize_state STATE_MAP_full "X.Y.Z.".data = pyUpper (pyStrip "X.Y.Z.".data) :=
  C6_amended_passthrough "X.Y.Z." (by decide) (by decide) (by decide) (by decide)

/-! ## Claim C8: PO-Box lines never carry a unit -/

/-- C8 (confirmed): whenever the comma-replaced, whitespace-collapsed text
matches the PO-Box pattern, `extract_unit` returns that text unchanged and
no unit. -/
theorem C8_pobox_no_unit (s : String) (h : poboxSearch (euPre s.data) = true) :
    extract_unit s.data = (euPre s.data, none) := by
  by_cases he : s.data.isEmpty
  · have hd : s.data = [] := by simpa [List.isEmpty_iff] using he
    rw [hd] at h
    exact absurd h (by decide)
  · have h' : s.data.isEmpty = false := by simpa using he
    rw [extract_unit, h']
    simp only [Bool.false_eq_true, if_false, h, if_true]

/-- C8 witness: the spec's own example `extract_unit("PO BOX 789")`. -/
theorem C8_pobox_no_unit_witness :
    poboxSearch (euPre "PO BOX 789".data) = true ∧
      extract_unit "PO BOX 789".data = ("PO BOX 789".data, none) := by
  have h := C8_pobox_no_unit "PO BOX 789" (by decide)
  rw [show euPre "PO BOX 789".data = "PO BOX 789".data from by decide] at h
  exact ⟨by decide, h⟩

/-! ## Claim C9: the splitter never propagates an exception -/

/-- C9 (confirmed): for every input string, either the heuristic partition
completes (`pfaPartition` returns `ok`) and `parse_full_address` is exactly
that partition fed through the normalizer, or the result is the all-empty
5-tuple.  In this embedding the error channel of `pfaPartition` is never
populated, because every primitive used inside the `try:` block
(`re.search` on a `str`, slicing, `split`, `join`, `strip`,
`extract_unit`) is total and non-raising on `str` arguments; the `except`
handler that maps any exception to the all-empty tuple is therefore dead
code, and no input can abort the call. -/
theorem C9_no_exception_propagation (full : String) :
    (∃ p, pfaPartition (pfaPre full) (pfaParts (pfaPre full)) = Except.ok p ∧
       parse_full_address full = pfaNormalize p) ∨
    parse_full_address full = ("", "", "", "", "") := by
  by_cases h : full = ""
  · right
    rw [parse_full_address, if_pos h]
  · left
    refine ⟨_, rfl, ?_⟩
    rw [parse_full_address, if_neg h]
    rfl

/-! ## Claim C4: the two near-duplicate copies of the engine -/

set_option maxRecDepth 40000 in
/-- C4 counterexample: the `SUFFIX_MAP` of `address_standardizer.py` has ten
entries, the one in the main section of `address_standardizer_with_usps.py`
well over a hundred; on street `"BAYOU"` the former leaves the word alone
while the latter rewrites it to `"BYU"`, so the two engines differ. -/
theorem C4_counterexample :
    standardize_address_components_local cfgStd "BAYOU" "" "" "" "" ≠
      standardize_address_components_local cfgUsps "BAYOU" "" "" "" "" := by
  decide

/-- C4 (corrected): the two copies agree on the `city`, `state` and `zip`
fields for every input 5-tuple — the cleaner, the state table and the ZIP
logic are identical — while the street and unit fields can differ through
the different suffix tables (e.g. on `"BAYOU"`). -/
theorem C4_amended_agree_city_state_zip (a1 a2 c st z : String) :
    (standardize_address_components_local cfgStd a1 a2 c st z).city =
      (standardize_address_components_local cfgUsps a1 a2 c st z).city ∧
    (standardize_address_components_local cfgStd a1 a2 c st z).state =
      (standardize_address_components_local cfgUsps a1 a2 c st z).state ∧
    (standardize_address_components_local cfgStd a1 a2 c st z).zip =
      (standardize_address_components_local cfgUsps a1 a2 c st z).zip :=
  ⟨rfl, rfl, rfl⟩

/-! ## Strip/upper algebra (towards claims C3 and C2) -/

theorem dropWhile_dropWhile (p : Char → Bool) (l : List Char) :
    (l.dropWhile p).dropWhile p = l.dropWhile p := by
  induction l with
  | nil => rfl
  | cons c rest ih =>
    by_cases h : p c = true
    · simpa [List.dropWhile_cons, h] using ih
    · simp [List.dropWhile_cons, h]

theorem dropWhile_eq_self_of_head (p : Char → Bool) {l : List Char}
    (h : ∀ c, l.head? = some c → p c = false) : l.dropWhile p = l := by
  cases l with
  | nil => rfl
  | cons c rest => simp [List.dropWhile_cons, h c rfl]

theorem dropWhile_eq_self_of_all (p : Char → Bool) {l : List Char}
    (h : ∀ c ∈ l, p c = false) : l.dropWhile p = l := by
  cases l with
  | nil => rfl
  | cons c rest => simp [List.dropWhile_cons, h c (by simp)]

/-- Right-stripping keeps a non-stripped head character in place. -/
theorem stripRight_cons_head {p : Char → Bool} {c : Char} (t : List Char)
    (hc : p c = false) :
    ((c :: t).reverse.dropWhile p).reverse.head? = some c := by
  rw [List.reverse_cons, List.dropWhile_append]
  by_cases he : (t.reverse.dropWhile p).isEmpty
  · simp [he, List.dropWhile_cons, hc]
  · have he' : (t.reverse.dropWhile p).isEmpty = false := by simpa using he
    rw [he']
    simp only [Bool.false_eq_true, if_false]
    cases hd : t.reverse.dropWhile p with
    | nil => rw [hd] at he'; simp at he'
    | cons x xs => simp [hd]

theorem head?_dropWhile_false (p : Char → Bool) (l : List Char) {c : Char}
    (h : (l.dropWhile p).head? = some c) : p c = false := by
  have := List.head?_dropWhile_not p l
  rw [h] at this
  exact this

theorem pyStrip_idem (l : List Char) : pyStrip (pyStrip l) = pyStrip l := by
  rw [pyStrip, pyStrip]
  cases hx : l.dropWhile pyIsSpace with
  | nil => simp
  | cons c t =>
    have hc : pyIsSpace c = false := by
      apply head?_dropWhile_false pyIsSpace l
      rw [hx]; rfl
    have h1 : (((c :: t).reverse.dropWhile pyIsSpace).reverse).dropWhile pyIsSpace =
        ((c :: t).reverse.dropWhile pyIsSpace).reverse := by
      apply dropWhile_eq_self_of_head
      intro d hd
      rw [stripRight_cons_head t hc] at hd
      cases hd
      exact hc
    rw [h1, List.reverse_reverse, dropWhile_dropWhile]

theorem pyStrip_pyUpper (l : List Char) : pyStrip (pyUpper l) = pyUpper (pyStrip l) := by
  have hps : (pyIsSpace ∘ Char.toUpper) = pyIsSpace := funext fun c => pyIsSpace_toUpper c
  rw [pyStrip, pyStrip, pyUpper, pyUpper, List.dropWhile_map, hps, ← List.map_reverse,
    List.dropWhile_map, hps, ← List.map_reverse]

theorem pyUpper_pyUpper (l : List Char) : pyUpper (pyUpper l) = pyUpper l := by
  rw [pyUpper, pyUpper, List.map_map]
  exact List.map_congr_left (fun a _ => toUpper_toUpper a)

/-- `s.strip().upper()` is a fixed point of itself. -/
theorem pyUpper_pyStrip_fix (l : List Char) :
    pyUpper (pyStrip (pyUpper (pyStrip l))) = pyUpper (pyStrip l) := by
  rw [pyStrip_pyUpper, pyStrip_idem, pyUpper_pyUpper]

theorem mem_pyStrip {c : Char} {l : List Char} (h : c ∈ pyStrip l) : c ∈ l := by
  rw [pyStrip] at h
  rw [List.mem_reverse] at h
  have h2 := (List.dropWhile_sublist pyIsSpace (l := (l.dropWhile pyIsSpace).reverse)).mem h
  rw [List.mem_reverse] at h2
  exact (List.dropWhile_sublist pyIsSpace (l := l)).mem h2

/-! ## ZIP and state standardization are idempotent -/

theorem filter_pyStrip_nil {p : Char → Bool} {l : List Char}
    (h : l.filter p = []) : (pyStrip l).filter p = [] := by
  rw [List.filter_eq_nil_iff] at h ⊢
  exact fun c hc => h c (mem_pyStrip hc)

theorem standardize_zip_digits {l : List Char} (hd : ∀ c ∈ l, c.isDigit = true)
    (hne : l ≠ []) :
    standardize_zip l =
      (if l.length = 9 then l.take 5 ++ '-' :: l.drop 5 else l) := by
  have he : l.isEmpty = false := by
    cases l with
    | nil => exact absurd rfl hne
    | cons c t => rfl
  have hf : l.filter Char.isDigit = l := List.filter_eq_self.mpr hd
  rw [standardize_zip, he]
  simp only [Bool.false_eq_true, if_false, hf]
  by_cases h9 : l.length = 9
  · simp [h9]
  · have h5 : ¬(l.length = 5 ∧ True) ∨ True := by tauto
    by_cases h5' : l.length = 5
    · simp [h9, h5']
    · simp [h9, h5', he]

theorem standardize_zip_idem (l : List Char) :
    standardize_zip (standardize_zip l) = standardize_zip l := by
  by_cases h0 : l.isEmpty
  · have hl : l = [] := by simpa [List.isEmpty_iff] using h0
    subst hl
    rfl
  · have h0' : l.isEmpty = false := by simpa using h0
    have hdig : ∀ c ∈ l.filter Char.isDigit, c.isDigit = true :=
      fun c hc => (List.mem_filter.mp hc).2
    by_cases h9 : (l.filter Char.isDigit).length = 9
    · have hval : standardize_zip l =
          (l.filter Char.isDigit).take 5 ++ '-' :: (l.filter Char.isDigit).drop 5 := by
        rw [standardize_zip, h0']
        simp only [Bool.false_eq_true, if_false, h9, if_true]
      rw [hval]
      set z := l.filter Char.isDigit with hz
      have hfe : (z.take 5 ++ '-' :: z.drop 5).filter Char.isDigit = z := by
        rw [List.filter_append]
        rw [List.filter_eq_self.mpr (fun c hc => hdig c (List.mem_of_mem_take hc))]
        rw [List.filter_cons]
        simp only [show ('-').isDigit = false from rfl, Bool.false_eq_true, if_false]
        rw [List.filter_eq_self.mpr (fun c hc => hdig c (List.mem_of_mem_drop hc))]
        exact List.take_append_drop 5 z
      have hle : (z.take 5 ++ '-' :: z.drop 5).isEmpty = false := by
        cases ht : z.take 5 <;> rfl
      rw [standardize_zip, hle]
      simp only [Bool.false_eq_true, if_false, hfe, h9, if_true]
    · by_cases h5 : (l.filter Char.isDigit).length = 5
      · have hval : standardize_zip l = l.filter Char.isDigit := by
          rw [standardize_zip, h0']
          simp only [Bool.false_eq_true, if_false, h9, h5, if_true]
          norm_num
        have hne : l.filter Char.isDigit ≠ [] := by
          intro h
          rw [h] at h5
          exact absurd h5 (by decide)
        rw [hval, standardize_zip_digits hdig hne, if_neg h9]
      · by_cases hne : (l.filter Char.isDigit).isEmpty
        · have hnil : l.filter Char.isDigit = [] := by simpa [List.isEmpty_iff] using hne
          have hval : standardize_zip l = pyStrip l := by
            rw [standardize_zip, h0']
            simp only [Bool.false_eq_true, if_false, hnil]
            norm_num
          rw [hval]
          by_cases hs : (pyStrip l).isEmpty
          · have hsn : pyStrip l = [] := by simpa [List.isEmpty_iff] using hs
            rw [hsn]
            rfl
          · have hs' : (pyStrip l).isEmpty = false := by simpa using hs
            rw [standardize_zip, hs']
            simp only [Bool.false_eq_true, if_false, filter_pyStrip_nil hnil,
              List.length_nil, List.isEmpty_nil, Bool.not_true, pyStrip_idem]
            norm_num
        · have hne' : l.filter Char.isDigit ≠ [] := by
            intro h
            rw [h] at hne
            exact hne rfl
          have hbool : (l.filter Char.isDigit).isEmpty = false := by
            cases hf : l.filter Char.isDigit with
            | nil => exact absurd hf hne'
            | cons c t => rfl
          have hval : standardize_zip l = l.filter Char.isDigit := by
            rw [standardize_zip, h0']
            simp only [Bool.false_eq_true, if_false, h9, h5, hbool, Bool.not_false, if_true]
          rw [hval, standardize_zip_digits hdig hne', if_neg h9]

theorem mapLookup_mem {m : List (String × String)} {k v : List Char}
    (h : mapLookup m k = some v) : ∃ e ∈ m, v = e.2.data := by
  induction m with
  | nil => cases h
  | cons e rest ih =>
    rw [mapLookup] at h
    by_cases he : e.1.data = k
    · rw [if_pos he] at h
      exact ⟨e, List.mem_cons_self e rest, (Option.some_inj.mp h).symm⟩
    · rw [if_neg he] at h
      obtain ⟨e', he', hv⟩ := ih h
      exact ⟨e', List.mem_cons_of_mem e he', hv⟩

theorem isUpper_not_space {c : Char} (h : c.isUpper = true) : pyIsSpace c = false := by
  rw [isUpper_iff_toNat] at h
  rw [Bool.eq_false_iff]
  intro hs
  rcases pyIsSpace_iff_toNat.mp hs with h' | h' | h' | h' | h' | h' <;> omega

theorem isUpper_toUpper_fix {c : Char} (h : c.isUpper = true) : c.toUpper = c := by
  rw [isUpper_iff_toNat] at h
  apply char_eq_iff_toNat.mpr
  rw [toUpper_toNat, if_neg (by omega)]

/-- A list of uppercase letters is untouched by strip and upper-casing, and
passes the 2-letter-alphabetic test if it has length two. -/
theorem upper_list_fixed {v : List Char} (hu : ∀ c ∈ v, c.isUpper = true) :
    pyStrip v = v ∧ pyUpper v = v ∧ v.all Char.isAlpha = true := by
  refine ⟨?_, ?_, ?_⟩
  · rw [pyStrip]
    rw [dropWhile_eq_self_of_all pyIsSpace (fun c hc => isUpper_not_space (hu c hc))]
    rw [dropWhile_eq_self_of_all pyIsSpace
      (fun c hc => isUpper_not_space (hu c (List.mem_reverse.mp hc)))]
    exact List.reverse_reverse v
  · rw [pyUpper]
    exact (List.map_congr_left (fun a ha => isUpper_toUpper_fix (hu a ha))).trans (List.map_id v)
  · rw [List.all_eq_true]
    intro c hc
    rw [Char.isAlpha, Bool.or_eq_true]
    exact Or.inl (hu c hc)

theorem standardize_state_fix_of_upper2 {m : List (String × String)} {v : List Char}
    (h2 : v.length = 2) (hu : ∀ c ∈ v, c.isUpper = true) :
    standardize_state m v = v := by
  obtain ⟨hst, hup, hal⟩ := upper_list_fixed hu
  have hne : v.isEmpty = false := by
    cases v with
    | nil => exact absurd h2 (by decide)
    | cons c t => rfl
  rw [standardize_state, hne]
  simp only [Bool.false_eq_true, if_false, hst, hup, h2, hal]
  simp

theorem standardize_state_idem {m : List (String × String)}
    (hm : stateMapOK m = true) (l : List Char) :
    standardize_state m (standardize_state m l) = standardize_state m l := by
  have hmval : ∀ e ∈ m, e.2.data.length = 2 ∧ ∀ c ∈ e.2.data, c.isUpper = true := by
    intro e he
    have := (List.all_eq_true.mp hm) e he
    rw [Bool.and_eq_true] at this
    exact ⟨by simpa using this.1, by simpa [List.all_eq_true] using this.2⟩
  by_cases h0 : l.isEmpty
  · have hl : l = [] := by simpa [List.isEmpty_iff] using h0
    subst hl
    rfl
  · have h0' : l.isEmpty = false := by simpa using h0
    by_cases h2 : ((pyUpper (pyStrip l)).length = 2 &&
        (pyUpper (pyStrip l)).all Char.isAlpha) = true
    · have hval : standardize_state m l = pyUpper (pyStrip l) := by
        rw [standardize_state, h0']
        simp only [Bool.false_eq_true, if_false, h2, if_true]
      rw [hval]
      have hse' : (pyUpper (pyStrip l)).isEmpty = false := by
        cases hx : pyUpper (pyStrip l) with
        | nil => rw [hx] at h2; exact absurd h2 (by decide)
        | cons c t => rfl
      rw [standardize_state, hse', pyUpper_pyStrip_fix]
      simp only [Bool.false_eq_true, if_false, h2, if_true]
    · have h2' : ((pyUpper (pyStrip l)).length = 2 &&
          (pyUpper (pyStrip l)).all Char.isAlpha) = false := by simpa using h2
      cases hm1 : mapLookup m (stateClean (pyUpper (pyStrip l))) with
      | some v =>
        have hval : standardize_state m l = v := by
          rw [standardize_state, h0']
          simp only [Bool.false_eq_true, if_false, h2', hm1]
        obtain ⟨e, he, hv⟩ := mapLookup_mem hm1
        obtain ⟨hl2, hlu⟩ := hmval e he
        rw [hval, hv]
        exact standardize_state_fix_of_upper2 hl2 hlu
      | none =>
        cases hm2 : mapLookup m (strReplace " STATE".data []
            (stateClean (pyUpper (pyStrip l)))) with
        | some v =>
          have hval : standardize_state m l = v := by
            rw [standardize_state, h0']
            simp only [Bool.false_eq_true, if_false, h2', hm1, hm2]
          obtain ⟨e, he, hv⟩ := mapLookup_mem hm2
          obtain ⟨hl2, hlu⟩ := hmval e he
          rw [hval, hv]
          exact standardize_state_fix_of_upper2 hl2 hlu
        | none =>
          have hval : standardize_state m l = pyUpper (pyStrip l) := by
            rw [standardize_state, h0']
            simp only [Bool.false_eq_true, if_false, h2', hm1, hm2]
          rw [hval]
          by_cases hse : (pyUpper (pyStrip l)).isEmpty
          · have hnil : pyUpper (pyStrip l) = [] := by simpa [List.isEmpty_iff] using hse
            rw [hnil]
            rfl
          · have hse' : (pyUpper (pyStrip l)).isEmpty = false := by simpa using hse
            rw [standardize_state, hse', pyUpper_pyStrip_fix]
            simp only [Bool.false_eq_true, if_false, h2', hm1, hm2]

/-! ## Claim C3: idempotence of the Address Normalizer -/

set_option maxRecDepth 40000 in
/-- C3 counterexample: on the 5-tuple `("", "", ". a .", "", "")` the first
pass cleans the city to `" A "` (the code strips *before* removing
punctuation, so removing the dots leaves surrounding spaces), and feeding
the output back in cleans it further to `"A"`; the normalizer is not
idempotent, and its output is not always a fixed point. -/
theorem C3_counterexample :
    standardize_address_components_local cfgUsps
        (standardize_address_components_local cfgUsps "" "" ". a ." "" "").address1
        (standardize_address_components_local cfgUsps "" "" ". a ." "" "").address2
        (standardize_address_components_local cfgUsps "" "" ". a ." "" "").city
        (standardize_address_components_local cfgUsps "" "" ". a ." "" "").state
        (standardize_address_components_local cfgUsps "" "" ". a ." "" "").zip ≠
      standardize_address_components_local cfgUsps "" "" ". a ." "" "" := by
  decide

/-- C3 (corrected): re-normalizing the output leaves the `state` and `zip`
fields unchanged (`standardize_state` and `standardize_zip` are idempotent,
the former because every table value is a two-letter upper-case code); the
text fields `address1`, `address2`, `city` need not be fixed points. -/
theorem C3_amended_state_zip_idempotent (a1 a2 c st z : String) :
    (standardize_address_components_local cfgUsps
        (standardize_address_components_local cfgUsps a1 a2 c st z).address1
        (standardize_address_components_local cfgUsps a1 a2 c st z).address2
        (standardize_address_components_local cfgUsps a1 a2 c st z).city
        (standardize_address_components_local cfgUsps a1 a2 c st z).state
        (standardize_address_components_local cfgUsps a1 a2 c st z).zip).state =
      (standardize_address_components_local cfgUsps a1 a2 c st z).state ∧
    (standardize_address_components_local cfgUsps
        (standardize_address_components_local cfgUsps a1 a2 c st z).address1
        (standardize_address_components_local cfgUsps a1 a2 c st z).address2
        (standardize_address_components_local cfgUsps a1 a2 c st z).city
        (standardize_address_components_local cfgUsps a1 a2 c st z).state
        (standardize_address_components_local cfgUsps a1 a2 c st z).zip).zip =
      (standardize_address_components_local cfgUsps a1 a2 c st z).zip := by
  constructor
  · exact congrArg String.mk
      (standardize_state_idem (m := STATE_MAP_full) (by decide) st.data)
  · exact congrArg String.mk (standardize_zip_idem z.data)

/-! ## Claim C10: shape of every extracted unit -/

theorem trailingValueRun_spec (t : List Char) :
    ∀ c ∈ trailingValueRun t, isValueChar c = true := by
  intro c hc
  rw [trailingValueRun, List.mem_reverse] at hc
  exact List.mem_takeWhile_imp hc

theorem trailingTry_spec (ds : List String) (s : List Char) (d : String) (v : List Char)
    (h : trailingTry ds s = some (d, v)) :
    d ∈ ds ∧ v ≠ [] ∧ ∀ c ∈ v, isValueChar c = true := by
  induction ds generalizing s with
  | nil => cases h
  | cons e rest ih =>
    rw [trailingTry] at h
    split at h
    · simp only [] at h
      split at h
      · rename_i hcond
        obtain ⟨rfl, rfl⟩ := Prod.mk.injEq .. ▸ Option.some_inj.mp h
        refine ⟨List.mem_cons_self e rest, ?_, trailingValueRun_spec _⟩
        intro hv
        rw [Bool.and_eq_true] at hcond
        rw [hv] at hcond
        exact absurd hcond.1 (by decide)
      · obtain ⟨hm, h2, h3⟩ := ih _ h
        exact ⟨List.mem_cons_of_mem e hm, h2, h3⟩
    · obtain ⟨hm, h2, h3⟩ := ih _ h
      exact ⟨List.mem_cons_of_mem e hm, h2, h3⟩

theorem trailingScanF_spec (fuel : Nat) (prev : Option Char) (acc s pre : List Char)
    (d : String) (v : List Char)
    (h : trailingScanF fuel prev acc s = some (pre, d, v)) :
    d ∈ UNIT_DESIGNATORS ∧ v ≠ [] ∧ ∀ c ∈ v, isValueChar c = true := by
  induction fuel generalizing prev acc s with
  | zero => cases h
  | succ n ih =>
    cases s with
    | nil => cases h
    | cons c rest =>
      rw [trailingScanF] at h
      split at h
      · cases htt : trailingTry UNIT_DESIGNATORS (c :: rest) with
        | some dv =>
          rw [htt] at h
          obtain ⟨d', v'⟩ := dv
          simp only [Option.some_inj, Prod.mk.injEq] at h
          obtain ⟨-, rfl, rfl⟩ := h
          obtain ⟨h1, h2, h3⟩ := trailingTry_spec _ _ _ _ htt
          exact ⟨h1, h2, h3⟩
        | none =>
          rw [htt] at h
          exact ih _ _ _ h
      · exact ih _ _ _ h

theorem pickValueAux_spec (rr af v rem : List Char)
    (h : pickValueAux rr af = some (v, rem)) :
    v ≠ [] ∧ ∀ c ∈ v, c ∈ rr := by
  induction rr generalizing af with
  | nil => cases h
  | cons c rs ih =>
    rw [pickValueAux] at h
    split at h
    · simp only [Option.some_inj, Prod.mk.injEq] at h
      obtain ⟨rfl, rfl⟩ := h
      constructor
      · simp
      · intro x hx
        rw [List.mem_reverse] at hx
        exact hx
    · obtain ⟨h1, h2⟩ := ih _ h
      exact ⟨h1, fun x hx => List.mem_cons_of_mem c (h2 x hx)⟩

theorem midValue_spec (t v rem : List Char) (h : midValue t = some (v, rem)) :
    v ≠ [] ∧ ∀ c ∈ v, isValueChar c = true := by
  rw [midValue] at h
  obtain ⟨h1, h2⟩ := pickValueAux_spec _ _ _ _ h
  refine ⟨h1, fun c hc => ?_⟩
  have := h2 c hc
  rw [List.mem_reverse] at this
  exact List.mem_takeWhile_imp this

theorem midTry_spec (ds : List String) (s : List Char) (d : String) (v rem : List Char)
    (h : midTry ds s = some (d, v, rem)) :
    d ∈ ds ∧ v ≠ [] ∧ ∀ c ∈ v, isValueChar c = true := by
  induction ds generalizing s with
  | nil => cases h
  | cons e rest ih =>
    rw [midTry] at h
    split at h
    · cases hmv : midValue (s.drop e.data.length) with
      | some vr =>
        rw [hmv] at h
        obtain ⟨v', rem'⟩ := vr
        simp only [Option.some_inj, Prod.mk.injEq] at h
        obtain ⟨rfl, rfl, rfl⟩ := h
        obtain ⟨h1, h2⟩ := midValue_spec _ _ _ hmv
        exact ⟨List.mem_cons_self e rest, h1, h2⟩
      | none =>
        rw [hmv] at h
        obtain ⟨hm, h2, h3⟩ := ih _ h
        exact ⟨List.mem_cons_of_mem e hm, h2, h3⟩
    · obtain ⟨hm, h2, h3⟩ := ih _ h
      exact ⟨List.mem_cons_of_mem e hm, h2, h3⟩

theorem midScanF_spec (fuel : Nat) (acc s pre : List Char) (d : String) (v rem : List Char)
    (h : midScanF fuel acc s = some (pre, d, v, rem)) :
    d ∈ UNIT_DESIGNATORS ∧ v ≠ [] ∧ ∀ c ∈ v, isValueChar c = true := by
  induction fuel generalizing acc s with
  | zero => cases h
  | succ n ih =>
    cases s with
    | nil => cases h
    | cons c rest =>
      rw [midScanF] at h
      split at h
      · cases htt : midTry UNIT_DESIGNATORS (rest.dropWhile pyIsSpace) with
        | some dvr =>
          rw [htt] at h
          obtain ⟨d', v', rem'⟩ := dvr
          simp only [Option.some_inj, Prod.mk.injEq] at h
          obtain ⟨-, rfl, rfl, rfl⟩ := h
          exact midTry_spec _ _ _ _ _ htt
        | none =>
          rw [htt] at h
          exact ih _ _ h
      · exact ih _ _ h

theorem canonDesig_mem {d : String} (hd : d ∈ UNIT_DESIGNATORS) :
    (⟨canonDesig d⟩ : String) ∈ (["APT", "UNIT", "STE", "FL", "FLOOR", "RM", "ROOM"] :
      List String) := by
  simp only [UNIT_DESIGNATORS, List.mem_cons, List.not_mem_nil, or_false] at hd
  rcases hd with rfl | rfl | rfl | rfl | rfl | rfl | rfl | rfl | rfl | rfl <;> decide

theorem isValueChar_toUpper {c : Char} (h : isValueChar c = true) :
    c.toUpper.isUpper = true ∨ c.toUpper.isDigit = true ∨ c.toUpper = '-' := by
  rw [isValueChar] at h
  rcases Bool.or_eq_true_iff.mp h with h' | hd
  · rcases Bool.or_eq_true_iff.mp h' with h'' | hl
    · rcases Bool.or_eq_true_iff.mp h'' with hu | hlo
      · left
        rw [Bool.and_eq_true, decide_eq_true_eq, decide_eq_true_eq,
          char_le_iff_toNat, char_le_iff_toNat] at hu
        have h65 : ('A' : Char).toNat = 65 := rfl
        have h90 : ('Z' : Char).toNat = 90 := rfl
        rw [h65] at hu
        rw [h90] at hu
        have hfix : c.toUpper = c := by
          apply char_eq_iff_toNat.mpr
          rw [toUpper_toNat, if_neg (by omega)]
        rw [hfix, isUpper_iff_toNat]
        omega
      · left
        rw [Bool.and_eq_true, decide_eq_true_eq, decide_eq_true_eq,
          char_le_iff_toNat, char_le_iff_toNat] at hlo
        have h97 : ('a' : Char).toNat = 97 := rfl
        have h122 : ('z' : Char).toNat = 122 := rfl
        rw [h97] at hlo
        rw [h122] at hlo
        rw [isUpper_iff_toNat, toUpper_toNat, if_pos (by omega)]
        omega
    · right
      left
      rw [isDigit_iff_toNat] at hl
      have hfix : c.toUpper = c := by
        apply char_eq_iff_toNat.mpr
        rw [toUpper_toNat, if_neg (by omega)]
      rw [hfix, isDigit_iff_toNat]
      omega
  · right
    right
    rw [decide_eq_true_eq] at hd
    subst hd
    decide

/-- C10 (confirmed): whenever `extract_unit` returns a unit, it is one of
the seven canonical designators `APT`, `UNIT`, `STE`, `FL`, `FLOOR`, `RM`,
`ROOM` (never `APARTMENT`, `SUITE` or `#`, which are rewritten to `APT`,
`STE`, `APT`), a single space, and a non-empty value over `A-Z`, `0-9`,
`-`. -/
theorem C10_unit_shape (s street u : List Char)
    (h : extract_unit s = (street, some u)) :
    ∃ d v, u = d ++ ' ' :: v ∧
      (⟨d⟩ : String) ∈ (["APT", "UNIT", "STE", "FL", "FLOOR", "RM", "ROOM"] : List String) ∧
      v ≠ [] ∧ ∀ c ∈ v, c.isUpper = true ∨ c.isDigit = true ∨ c = '-' := by
  rw [extract_unit] at h
  by_cases he : s.isEmpty = true
  · rw [if_pos he] at h
    simp at h
  · rw [if_neg he] at h
    simp only at h
    by_cases hp : poboxSearch (euPre s) = true
    · rw [if_pos hp] at h
      simp at h
    · rw [if_neg hp] at h
      have main : ∀ (d0 : String) (v0 : List Char), d0 ∈ UNIT_DESIGNATORS → v0 ≠ [] →
          (∀ c ∈ v0, isValueChar c = true) → u = mkUnit d0 v0 →
          ∃ d v, u = d ++ ' ' :: v ∧
            (⟨d⟩ : String) ∈ (["APT", "UNIT", "STE", "FL", "FLOOR", "RM", "ROOM"] :
              List String) ∧
            v ≠ [] ∧ ∀ c ∈ v, c.isUpper = true ∨ c.isDigit = true ∨ c = '-' := by
        intro d0 v0 hmem hne hval hu
        refine ⟨canonDesig d0, pyUpper v0, ?_, canonDesig_mem hmem, ?_, ?_⟩
        · rw [hu, mkUnit]
        · intro hn
          rw [pyUpper] at hn
          exact hne (List.map_eq_nil_iff.mp hn)
        · intro c hc
          rw [pyUpper, List.mem_map] at hc
          obtain ⟨c', hc', rfl⟩ := hc
          exact isValueChar_toUpper (hval c' hc')
      cases htr : trailingScan (euPre s) with
      | some pdv =>
        rw [htr] at h
        obtain ⟨pre, d0, v0⟩ := pdv
        simp only [Prod.mk.injEq, Option.some_inj] at h
        obtain ⟨h1, h2, h3⟩ := trailingScanF_spec _ _ _ _ _ _ _ htr
        exact main d0 v0 h1 h2 h3 h.2.symm
      | none =>
        rw [htr] at h
        cases hmi : midScan (euPre s) with
        | some pdvr =>
          rw [hmi] at h
          obtain ⟨pre, d0, v0, rem⟩ := pdvr
          simp only [Prod.mk.injEq, Option.some_inj] at h
          obtain ⟨h1, h2, h3⟩ := midScanF_spec _ _ _ _ _ _ _ hmi
          exact main d0 v0 h1 h2 h3 h.2.symm
        | none =>
          rw [hmi] at h
          simp at h

/-- C10 witness: the theorem applied at `"456 ELM ST APT 4B"`, whose unit
is `APT 4B`. -/
theorem C10_unit_shape_witness :
    ∃ d v, "APT 4B".data = d ++ ' ' :: v ∧
      (⟨d⟩ : String) ∈ (["APT", "UNIT", "STE", "FL", "FLOOR", "RM", "ROOM"] : List String) ∧
      v ≠ [] ∧ ∀ c ∈ v, c.isUpper = true ∨ c.isDigit = true ∨ c = '-' :=
  C10_unit_shape "456 ELM ST APT 4B".data "456 ELM ST".data "APT 4B".data (by decide)

theorem goodText_of_B {l : List Char} (h : goodTextB l = true) : goodText l := by
  intro c hc
  have := (List.all_eq_true.mp h) c hc
  rw [Bool.and_eq_true, Bool.or_eq_true] at this
  refine ⟨this.1, fun ha => ?_⟩
  rcases this.2 with h' | h'
  · rw [ha] at h'
    exact absurd h' (by decide)
  · exact h'

theorem goodChar_space : goodChar ' ' := by
  constructor
  · decide
  · intro h
    exact absurd h (by decide)

theorem mem_collapseWS {c : Char} {l : List Char} (h : c ∈ collapseWS l) :
    c ∈ l ∨ c = ' ' := by
  induction l with
  | nil => cases h
  | cons x rest ih =>
    cases rest with
    | nil =>
      rw [collapseWS_single] at h
      by_cases hx : pyIsSpace x = true
      · rw [hx] at h
        simp at h
        exact Or.inr h
      · have hx' : pyIsSpace x = false := by simpa using hx
        rw [hx'] at h
        simp at h
        exact Or.inl (by simp [h])
    | cons d ds =>
      rw [collapseWS_cons_cons] at h
      by_cases hx : pyIsSpace x = true
      · rw [hx] at h
        simp only [if_true] at h
        by_cases hd : pyIsSpace d = true
        · rw [hd] at h
          simp only [if_true] at h
          rcases ih h with h' | h'
          · exact Or.inl (List.mem_cons_of_mem x h')
          · exact Or.inr h'
        · have hd' : pyIsSpace d = false := by simpa using hd
          rw [hd'] at h
          simp only [Bool.false_eq_true, if_false, List.mem_cons] at h
          rcases h with h' | h'
          · exact Or.inr h'
          · rcases ih h' with h'' | h''
            · exact Or.inl (List.mem_cons_of_mem x h'')
            · exact Or.inr h''
      · have hx' : pyIsSpace x = false := by simpa using hx
        rw [hx'] at h
        simp only [Bool.false_eq_true, if_false, List.mem_cons] at h
        rcases h with h' | h'
        · exact Or.inl (by simp [h'])
        · rcases ih h' with h'' | h''
          · exact Or.inl (List.mem_cons_of_mem x h'')
          · exact Or.inr h''

theorem goodText_collapseWS {l : List Char} (h : goodText l) : goodText (collapseWS l) := by
  intro c hc
  rcases mem_collapseWS hc with h' | h'
  · exact h c h'
  · rw [h']
    exact goodChar_space

theorem goodText_pyStrip {l : List Char} (h : goodText l) : goodText (pyStrip l) :=
  fun c hc => h c (mem_pyStrip hc)

theorem goodText_filter {l : List Char} (p : Char → Bool) (h : goodText l) :
    goodText (l.filter p) :=
  fun c hc => h c (List.mem_filter.mp hc).1

theorem goodText_append {l1 l2 : List Char} (h1 : goodText l1) (h2 : goodText l2) :
    goodText (l1 ++ l2) := by
  intro c hc
  rcases List.mem_append.mp hc with h | h
  · exact h1 c h
  · exact h2 c h

/-- The cleaner produces good text. -/
theorem goodText_uac (l : List Char) : goodText (upper_and_cleanup l) := by
  rw [upper_and_cleanup]
  by_cases he : l.isEmpty = true
  · rw [if_pos he]
    intro c hc
    cases hc
  · rw [if_neg he]
    apply goodText_collapseWS
    intro c hc
    obtain ⟨hmem, hkeep⟩ := List.mem_filter.mp hc
    refine ⟨hkeep, fun ha => ?_⟩
    rw [pyUpper, List.mem_map] at hmem
    obtain ⟨c', -, rfl⟩ := hmem
    exact isUpper_toUpper_of_isAlpha ha

theorem mem_strReplaceF {pat rep : List Char} (fuel : Nat) (s : List Char) {c : Char}
    (h : c ∈ strReplaceF pat rep fuel s) : c ∈ s ∨ c ∈ rep := by
  induction fuel generalizing s with
  | zero => exact Or.inl h
  | succ n ih =>
    cases s with
    | nil => cases h
    | cons x rest =>
      rw [strReplaceF] at h
      split at h
      · rcases List.mem_append.mp h with h' | h'
        · exact Or.inr h'
        · rcases ih _ h' with h'' | h''
          · exact Or.inl (List.mem_of_mem_drop h'')
          · exact Or.inr h''
      · rcases List.mem_cons.mp h with h' | h'
        · exact Or.inl (by simp [h'])
        · rcases ih _ h' with h'' | h''
          · exact Or.inl (List.mem_cons_of_mem x h'')
          · exact Or.inr h''

theorem goodText_strReplace {pat rep s : List Char} (hrep : goodText rep)
    (hs : goodText s) : goodText (strReplace pat rep s) := by
  intro c hc
  rcases mem_strReplaceF _ _ hc with h | h
  · exact hs c h
  · exact hrep c h

theorem mem_wordSubF {pat rep : List Char} (fuel : Nat) (prev : Option Char)
    (s : List Char) {c : Char} (h : c ∈ wordSubF pat rep fuel prev s) :
    c ∈ s ∨ c ∈ rep := by
  induction fuel generalizing prev s with
  | zero => exact Or.inl h
  | succ n ih =>
    cases s with
    | nil => cases h
    | cons x rest =>
      rw [wordSubF] at h
      split at h
      · rcases List.mem_append.mp h with h' | h'
        · exact Or.inr h'
        · rcases ih _ _ h' with h'' | h''
          · exact Or.inl (List.mem_of_mem_drop h'')
          · exact Or.inr h''
      · rcases List.mem_cons.mp h with h' | h'
        · exact Or.inl (by simp [h'])
        · rcases ih _ _ h' with h'' | h''
          · exact Or.inl (List.mem_cons_of_mem x h'')
          · exact Or.inr h''

theorem goodText_applySubs {entries : List (String × String)} {s : List Char}
    (hent : ∀ e ∈ entries, goodText e.2.data) (hs : goodText s) :
    goodText (applySubs entries s) := by
  induction entries generalizing s with
  | nil => exact hs
  | cons e rest ih =>
    rw [applySubs] at *
    rw [List.foldl_cons]
    apply ih (fun e' he' => hent e' (List.mem_cons_of_mem e he'))
    intro c hc
    rcases mem_wordSubF _ _ _ hc with h | h
    · exact hs c h
    · exact hent e (List.mem_cons_self e rest) c h

theorem goodText_replace_sufdir {dm sm : List (String × String)} {s : List Char}
    (hdm : ∀ e ∈ dm, goodText e.2.data) (hsm : ∀ e ∈ sm, goodText e.2.data)
    (hs : goodText s) : goodText (replace_suffixes_and_dirs dm sm s) := by
  rw [replace_suffixes_and_dirs]
  by_cases he : s.isEmpty = true
  · rw [if_pos he]
    exact hs
  · rw [if_neg he]
    exact goodText_pyStrip (goodText_collapseWS (goodText_applySubs hsm
      (goodText_applySubs hdm hs)))

theorem mem_poSubF (fuel : Nat) (prev : Option Char) (s : List Char) {c : Char}
    (h : c ∈ poSubF fuel prev s) : c ∈ s ∨ c ∈ "PO BOX".data := by
  induction fuel generalizing prev s with
  | zero => exact Or.inl h
  | succ n ih =>
    cases s with
    | nil => cases h
    | cons x rest =>
      rw [poSubF] at h
      split at h
      · rename_i k hk
        rcases List.mem_append.mp h with h' | h'
        · exact Or.inr h'
        · rcases ih _ _ h' with h'' | h''
          · exact Or.inl (List.mem_of_mem_drop h'')
          · exact Or.inr h''
      · rcases List.mem_cons.mp h with h' | h'
        · exact Or.inl (by simp [h'])
        · rcases ih _ _ h' with h'' | h''
          · exact Or.inl (List.mem_cons_of_mem x h'')
          · exact Or.inr h''

theorem goodText_poboxSub {s : List Char} (hs : goodText s) : goodText (poboxSub s) := by
  intro c hc
  rcases mem_poSubF _ _ _ hc with h | h
  · exact hs c h
  · exact goodText_of_B (by decide) c h

theorem goodText_normalize_po_box {s : List Char} (hs : goodText s) :
    goodText (normalize_po_box s) := by
  rw [normalize_po_box]
  by_cases he : s.isEmpty = true
  · rw [if_pos he]
    exact hs
  · rw [if_neg he]
    exact goodText_pyStrip (goodText_collapseWS (goodText_filter _ (goodText_poboxSub hs)))

theorem mem_dropOpt {ch c : Char} {s : List Char} (h : c ∈ dropOpt ch s) : c ∈ s := by
  cases s with
  | nil => cases h
  | cons x rest =>
    rw [dropOpt] at h
    split at h
    · exact List.mem_cons_of_mem x h
    · exact h

theorem mem_trailingScanF_pre (fuel : Nat) (prev : Option Char) (acc s pre : List Char)
    (d : String) (v : List Char)
    (h : trailingScanF fuel prev acc s = some (pre, d, v)) :
    ∀ c ∈ pre, c ∈ acc ∨ c ∈ s := by
  induction fuel generalizing prev acc s with
  | zero => cases h
  | succ n ih =>
    cases s with
    | nil => cases h
    | cons x rest =>
      rw [trailingScanF] at h
      have step : ∀ c ∈ pre, c ∈ (x :: acc) ∨ c ∈ rest → c ∈ acc ∨ c ∈ x :: rest := by
        intro c _ hc
        rcases hc with hc | hc
        · rcases List.mem_cons.mp hc with hc' | hc'
          · exact Or.inr (by simp [hc'])
          · exact Or.inl hc'
        · exact Or.inr (List.mem_cons_of_mem x hc)
      split at h
      · cases htt : trailingTry UNIT_DESIGNATORS (x :: rest) with
        | some dv =>
          rw [htt] at h
          obtain ⟨d', v'⟩ := dv
          simp only [Option.some_inj, Prod.mk.injEq] at h
          obtain ⟨rfl, -, -⟩ := h
          intro c hc
          rw [List.mem_reverse] at hc
          exact Or.inl hc
        | none =>
          rw [htt] at h
          intro c hc
          exact step c hc (ih _ _ _ h c hc)
      · intro c hc
        exact step c hc (ih _ _ _ h c hc)

theorem mem_pickValueAux_rem {rr af v rem : List Char}
    (h : pickValueAux rr af = some (v, rem)) :
    ∀ c ∈ rem, c ∈ rr ∨ c ∈ af := by
  induction rr generalizing af with
  | nil => cases h
  | cons x rs ih =>
    rw [pickValueAux] at h
    split at h
    · simp only [Option.some_inj, Prod.mk.injEq] at h
      obtain ⟨-, rfl⟩ := h
      exact fun c hc => Or.inr hc
    · intro c hc
      rcases ih h c hc with h' | h'
      · exact Or.inl (List.mem_cons_of_mem x h')
      · rcases List.mem_cons.mp h' with h'' | h''
        · exact Or.inl (by simp [h''])
        · exact Or.inr h''

theorem mem_midValue_rem {t v rem : List Char} (h : midValue t = some (v, rem)) :
    ∀ c ∈ rem, c ∈ t := by
  rw [midValue] at h
  intro c hc
  rcases mem_pickValueAux_rem h c hc with h' | h'
  · rw [List.mem_reverse] at h'
    have h2 := (List.takeWhile_sublist isValueChar).mem h'
    have h3 := (List.dropWhile_sublist pyIsSpace).mem h2
    exact mem_dropOpt ((List.dropWhile_sublist pyIsSpace).mem
      (mem_dropOpt (mem_dropOpt h3)))
  · have h2 := (List.dropWhile_sublist isValueChar).mem h'
    have h3 := (List.dropWhile_sublist pyIsSpace).mem h2
    exact mem_dropOpt ((List.dropWhile_sublist pyIsSpace).mem
      (mem_dropOpt (mem_dropOpt h3)))

theorem mem_midTry_rem {ds : List String} {s : List Char} {d : String} {v rem : List Char}
    (h : midTry ds s = some (d, v, rem)) : ∀ c ∈ rem, c ∈ s := by
  induction ds generalizing s with
  | nil => cases h
  | cons e rest ih =>
    rw [midTry] at h
    split at h
    · cases hmv : midValue (s.drop e.data.length) with
      | some vr =>
        rw [hmv] at h
        obtain ⟨v', rem'⟩ := vr
        simp only [Option.some_inj, Prod.mk.injEq] at h
        obtain ⟨-, -, rfl⟩ := h
        exact fun c hc => List.mem_of_mem_drop (mem_midValue_rem hmv c hc)
      | none =>
        rw [hmv] at h
        exact ih h
    · exact ih h

theorem mem_midScanF_parts (fuel : Nat) (acc s pre : List Char) (d : String)
    (v rem : List Char) (h : midScanF fuel acc s = some (pre, d, v, rem)) :
    (∀ c ∈ pre, c ∈ acc ∨ c ∈ s) ∧ (∀ c ∈ rem, c ∈ s) := by
  induction fuel generalizing acc s with
  | zero => cases h
  | succ n ih =>
    cases s with
    | nil => cases h
    | cons x rest =>
      rw [midScanF] at h
      have step : (∀ c ∈ pre, c ∈ (x :: acc) ∨ c ∈ rest) → (∀ c ∈ rem, c ∈ rest) →
          (∀ c ∈ pre, c ∈ acc ∨ c ∈ x :: rest) ∧ (∀ c ∈ rem, c ∈ x :: rest) := by
        intro hp hr
        constructor
        · intro c hc
          rcases hp c hc with h' | h'
          · rcases List.mem_cons.mp h' with h'' | h''
            · exact Or.inr (by simp [h''])
            · exact Or.inl h''
          · exact Or.inr (List.mem_cons_of_mem x h')
        · exact fun c hc => List.mem_cons_of_mem x (hr c hc)
      split at h
      · cases htt : midTry UNIT_DESIGNATORS (rest.dropWhile pyIsSpace) with
        | some dvr =>
          rw [htt] at h
          obtain ⟨d', v', rem'⟩ := dvr
          simp only [Option.some_inj, Prod.mk.injEq] at h
          obtain ⟨rfl, -, -, rfl⟩ := h
          constructor
          · intro c hc
            rw [List.mem_reverse] at hc
            exact Or.inl hc
          · intro c hc
            exact List.mem_cons_of_mem x
              ((List.dropWhile_sublist pyIsSpace).mem (mem_midTry_rem htt c hc))
        | none =>
          rw [htt] at h
          obtain ⟨hp, hr⟩ := ih _ _ h
          exact step hp hr
      · obtain ⟨hp, hr⟩ := ih _ _ h
        exact step hp hr

theorem goodText_commaToSpace {l : List Char} (h : goodText l) :
    goodText (commaToSpace l) := by
  intro c hc
  rw [commaToSpace, List.mem_map] at hc
  obtain ⟨c', hc', rfl⟩ := hc
  split
  · exact goodChar_space
  · exact h c' hc'

theorem goodText_euPre {l : List Char} (h : goodText l) : goodText (euPre l) :=
  goodText_pyStrip (goodText_collapseWS (goodText_commaToSpace h))

theorem goodChar_of_isValueChar {c : Char} (h : isValueChar c = true) :
    goodChar c.toUpper := by
  rcases isValueChar_toUpper h with hu | hd | hm
  · constructor
    · simp [keepChar, isWordChar, Char.isAlphanum, Char.isAlpha, hu]
    · exact fun _ => hu
  · constructor
    · simp [keepChar, isWordChar, Char.isAlphanum, hd]
    · intro ha
      rw [isDigit_iff_toNat] at hd
      rw [Char.isAlpha, Bool.or_eq_true, isUpper_iff_toNat, isLower_iff_toNat] at ha
      omega
  · rw [hm]
    exact ⟨by decide, fun hc => absurd hc (by decide)⟩

theorem goodText_canonDesig {d : String} (hd : d ∈ UNIT_DESIGNATORS) :
    goodText (canonDesig d) := by
  simp only [UNIT_DESIGNATORS, List.mem_cons, List.not_mem_nil, or_false] at hd
  rcases hd with rfl | rfl | rfl | rfl | rfl | rfl | rfl | rfl | rfl | rfl <;>
    exact goodText_of_B (by decide)

theorem goodText_mkUnit {d : String} {v : List Char} (hd : d ∈ UNIT_DESIGNATORS)
    (hv : ∀ c ∈ v, isValueChar c = true) : goodText (mkUnit d v) := by
  rw [mkUnit]
  apply goodText_append (goodText_canonDesig hd)
  intro c hc
  rcases List.mem_cons.mp hc with h' | h'
  · rw [h']
    exact goodChar_space
  · rw [pyUpper, List.mem_map] at h'
    obtain ⟨c', hc', rfl⟩ := h'
    exact goodChar_of_isValueChar (hv c' hc')

/-- Both outputs of `extract_unit` are good text when the input is. -/
theorem extract_unit_good {a1 : List Char} (h : goodText a1) :
    goodText (extract_unit a1).1 ∧
      ∀ u, (extract_unit a1).2 = some u → goodText u := by
  rw [extract_unit]
  by_cases he : a1.isEmpty = true
  · rw [if_pos he]
    exact ⟨fun c hc => absurd hc (List.not_mem_nil c), fun u hu => nomatch hu⟩
  · rw [if_neg he]
    simp only []
    have ha : goodText (euPre a1) := goodText_euPre h
    by_cases hp : poboxSearch (euPre a1) = true
    · rw [if_pos hp]
      exact ⟨ha, fun u hu => nomatch hu⟩
    · rw [if_neg hp]
      cases htr : trailingScan (euPre a1) with
      | some pdv =>
        obtain ⟨pre, d0, v0⟩ := pdv
        obtain ⟨hd0, -, hv0⟩ := trailingScanF_spec _ _ _ _ _ _ _ htr
        constructor
        · apply goodText_pyStrip
          intro c hc
          rcases mem_trailingScanF_pre _ _ _ _ _ _ _ htr c hc with h' | h'
          · exact absurd h' (List.not_mem_nil c)
          · exact ha c h'
        · intro u hu
          have hu' : mkUnit d0 v0 = u := Option.some_inj.mp hu
          rw [← hu']
          exact goodText_mkUnit hd0 hv0
      | none =>
        cases hmi : midScan (euPre a1) with
        | some pdvr =>
          obtain ⟨pre, d0, v0, rem⟩ := pdvr
          obtain ⟨hd0, -, hv0⟩ := midScanF_spec _ _ _ _ _ _ _ hmi
          obtain ⟨hpre, hrem⟩ := mem_midScanF_parts _ _ _ _ _ _ _ hmi
          constructor
          · apply goodText_pyStrip
            apply goodText_collapseWS
            apply goodText_pyStrip
            apply goodText_append
            · intro c hc
              rcases hpre c hc with h' | h'
              · exact absurd h' (List.not_mem_nil c)
              · exact ha c h'
            · exact fun c hc => ha c (hrem c hc)
          · intro u hu
            have hu' : mkUnit d0 v0 = u := Option.some_inj.mp hu
            rw [← hu']
            exact goodText_mkUnit hd0 hv0
        | none =>
          exact ⟨ha, fun u hu => nomatch hu⟩

theorem stdStep_good (cfg : Config) {A1 A2 : List Char} (h1 : goodText A1)
    (h2 : goodText A2) :
    goodText (stdStep cfg A1 A2).1 ∧ goodText (stdStep cfg A1 A2).2 := by
  rw [stdStep]
  split
  · refine ⟨?_, h2⟩
    split
    · exact goodText_normalize_po_box h1
    · exact goodText_filter _ (goodText_poboxSub h1)
  · split
    · obtain ⟨hg1, hg2⟩ := extract_unit_good h1
      refine ⟨hg1, ?_⟩
      cases heu : (extract_unit A1).2 with
      | none => exact h2
      | some u => exact hg2 u heu
    · exact ⟨h1, h2⟩

theorem goodText_stdA2Canon {b2 : List Char} (h : goodText b2) :
    goodText (stdA2Canon b2) := by
  rw [stdA2Canon]
  split
  · exact h
  · exact goodText_pyStrip (goodText_collapseWS (goodText_strReplace
      (goodText_of_B (by decide)) (goodText_strReplace (goodText_of_B (by decide)) h)))

/-- All three free-text fields of the normalized record are good text. -/
theorem standardize_text_fields_good (cfg : Config)
    (hdm : ∀ e ∈ cfg.dirMap, goodText e.2.data)
    (hsm : ∀ e ∈ cfg.suffixMap, goodText e.2.data)
    (a1 a2 c st z : String) :
    goodText (standardize_address_components_local cfg a1 a2 c st z).address1.data ∧
    goodText (standardize_address_components_local cfg a1 a2 c st z).address2.data ∧
    goodText (standardize_address_components_local cfg a1 a2 c st z).city.data := by
  have hA1 : goodText (upper_and_cleanup a1.data) := goodText_uac a1.data
  have hA2 : goodText (if a2 = "" then [] else upper_and_cleanup a2.data) := by
    split
    · exact fun ch hc => absurd hc (List.not_mem_nil ch)
    · exact goodText_uac a2.data
  obtain ⟨hp1, hp2⟩ := stdStep_good cfg hA1 hA2
  refine ⟨?_, ?_, goodText_uac c.data⟩
  · exact goodText_pyStrip (goodText_collapseWS (goodText_replace_sufdir hdm hsm hp1))
  · show goodText (pyStrip (collapseWS _))
    apply goodText_pyStrip
    apply goodText_collapseWS
    have hb := goodText_stdA2Canon hp2
    by_cases hie : (stdA2Canon (stdStep cfg (upper_and_cleanup a1.data)
        (if a2 = "" then [] else upper_and_cleanup a2.data)).2).isEmpty = true
    · rw [if_pos hie]
      exact hb
    · rw [if_neg hie]
      exact goodText_replace_sufdir hdm hsm hb

/-- Case analysis of `standardize_state`: empty, a 2-letter upper-case code
from the table, or the trimmed upper-cased input passed through. -/
theorem standardize_state_cases (m : List (String × String)) (hm : stateMapOK m = true)
    (l : List Char) :
    standardize_state m l = [] ∨
    ((standardize_state m l).length = 2 ∧
      ∀ c ∈ standardize_state m l, c.isUpper = true) ∨
    standardize_state m l = pyUpper (pyStrip l) := by
  have hmval : ∀ e ∈ m, e.2.data.length = 2 ∧ ∀ c ∈ e.2.data, c.isUpper = true := by
    intro e he
    have := (List.all_eq_true.mp hm) e he
    rw [Bool.and_eq_true] at this
    exact ⟨by simpa using this.1, by simpa [List.all_eq_true] using this.2⟩
  by_cases h0 : l.isEmpty = true
  · left
    rw [standardize_state, if_pos h0]
  · have h0' : l.isEmpty = false := by simpa using h0
    by_cases h2 : ((pyUpper (pyStrip l)).length = 2 &&
        (pyUpper (pyStrip l)).all Char.isAlpha) = true
    · right; right
      rw [standardize_state, h0']
      simp only [Bool.false_eq_true, if_false, h2, if_true]
    · have h2' : ((pyUpper (pyStrip l)).length = 2 &&
          (pyUpper (pyStrip l)).all Char.isAlpha) = false := by simpa using h2
      cases hm1 : mapLookup m (stateClean (pyUpper (pyStrip l))) with
      | some v =>
        right; left
        have hval : standardize_state m l = v := by
          rw [standardize_state, h0']
          simp only [Bool.false_eq_true, if_false, h2', hm1]
        obtain ⟨e, he, hv⟩ := mapLookup_mem hm1
        rw [hval, hv]
        exact hmval e he
      | none =>
        cases hm2 : mapLookup m (strReplace " STATE".data []
            (stateClean (pyUpper (pyStrip l)))) with
        | some v =>
          right; left
          have hval : standardize_state m l = v := by
            rw [standardize_state, h0']
            simp only [Bool.false_eq_true, if_false, h2', hm1, hm2]
          obtain ⟨e, he, hv⟩ := mapLookup_mem hm2
          rw [hval, hv]
          exact hmval e he
        | none =>
          right; right
          rw [standardize_state, h0']
          simp only [Bool.false_eq_true, if_false, h2', hm1, hm2]

/-- Case analysis of `standardize_zip`: empty, 5 digits, `DDDDD-DDDD`,
another non-empty all-digit string, or the trimmed original input when it
holds no digit at all. -/
theorem standardize_zip_cases (l : List Char) :
    standardize_zip l = [] ∨
    ((standardize_zip l).length = 5 ∧ ∀ c ∈ standardize_zip l, c.isDigit = true) ∨
    (∃ a b, standardize_zip l = a ++ '-' :: b ∧ a.length = 5 ∧ b.length = 4 ∧
      (∀ c ∈ a, c.isDigit = true) ∧ (∀ c ∈ b, c.isDigit = true)) ∨
    (standardize_zip l ≠ [] ∧ ∀ c ∈ standardize_zip l, c.isDigit = true) ∨
    (standardize_zip l = pyStrip l ∧ l.filter Char.isDigit = []) := by
  by_cases h0 : l.isEmpty = true
  · left
    rw [standardize_zip, if_pos h0]
  · have h0' : l.isEmpty = false := by simpa using h0
    have hdig : ∀ c ∈ l.filter Char.isDigit, c.isDigit = true :=
      fun c hc => (List.mem_filter.mp hc).2
    by_cases h9 : (l.filter Char.isDigit).length = 9
    · right; right; left
      have hval : standardize_zip l =
          (l.filter Char.isDigit).take 5 ++ '-' :: (l.filter Char.isDigit).drop 5 := by
        rw [standardize_zip, h0']
        simp only [Bool.false_eq_true, if_false, h9, if_true]
      refine ⟨(l.filter Char.isDigit).take 5, (l.filter Char.isDigit).drop 5, hval,
        ?_, ?_, ?_, ?_⟩
      · rw [List.length_take, h9]
        decide
      · rw [List.length_drop, h9]
      · exact fun c hc => hdig c (List.mem_of_mem_take hc)
      · exact fun c hc => hdig c (List.mem_of_mem_drop hc)
    · by_cases h5 : (l.filter Char.isDigit).length = 5
      · right; left
        have hval : standardize_zip l = l.filter Char.isDigit := by
          rw [standardize_zip, h0']
          simp only [Bool.false_eq_true, if_false, h9, h5, if_true]
          norm_num
        rw [hval]
        exact ⟨h5, hdig⟩
      · by_cases hne : (l.filter Char.isDigit).isEmpty = true
        · right; right; right; right
          have hnil : l.filter Char.isDigit = [] := by
            simpa [List.isEmpty_iff] using hne
          have hval : standardize_zip l = pyStrip l := by
            rw [standardize_zip, h0']
            simp only [Bool.false_eq_true, if_false, hnil]
            norm_num
          exact ⟨hval, hnil⟩
        · right; right; right; left
          have hbool : (l.filter Char.isDigit).isEmpty = false := by simpa using hne
          have hne' : l.filter Char.isDigit ≠ [] := by
            intro hx
            rw [hx] at hbool
            exact absurd hbool (by decide)
          have hval : standardize_zip l = l.filter Char.isDigit := by
            rw [standardize_zip, h0']
            simp only [Bool.false_eq_true, if_false, h9, h5, hbool, Bool.not_false, if_true]
          rw [hval]
          exact ⟨hne', hdig⟩

set_option maxRecDepth 40000 in
/-- C2 counterexample: on input state `"X.Y.Z."` and ZIP `"123"`, the
returned state is `"X.Y.Z."` — non-empty, not two letters, with periods —
and the returned ZIP is `"123"` — non-empty, not 5 digits, not
`DDDDD-DDDD`. -/
theorem C2_counterexample :
    ((standardize_address_components_local cfgUsps "" "" "" "X.Y.Z." "123").state ≠ "" ∧
     (standardize_address_components_local cfgUsps "" "" "" "X.Y.Z." "123").state.data.length
       ≠ 2 ∧
     '.' ∈ (standardize_address_components_local cfgUsps "" "" "" "X.Y.Z." "123").state.data) ∧
    ((standardize_address_components_local cfgUsps "" "" "" "X.Y.Z." "123").zip ≠ "" ∧
     (standardize_address_components_local cfgUsps "" "" "" "X.Y.Z." "123").zip.data.length
       ≠ 5 ∧
     '-' ∉ (standardize_address_components_local cfgUsps "" "" "" "X.Y.Z." "123").zip.data) := by
  refine ⟨⟨by decide, by decide, by decide⟩, ⟨by decide, by decide, by decide⟩⟩

/-- C2 (corrected): for every input 5-tuple, the normalizer's `address1`,
`address2` and `city` fields hold only characters of the cleaner's
keep-class `[\w\s#-]` with all letters upper-case; the `state` field is
empty, a two-letter upper-case code, or the trimmed upper-cased input
passed through; and the `zip` field is empty, five digits, `DDDDD-DDDD`,
another non-empty all-digit string, or the trimmed original input when it
holds no digit. -/
theorem C2_amended_invariant (a1 a2 c st z : String) :
    goodText (standardize_address_components_local cfgUsps a1 a2 c st z).address1.data ∧
    goodText (standardize_address_components_local cfgUsps a1 a2 c st z).address2.data ∧
    goodText (standardize_address_components_local cfgUsps a1 a2 c st z).city.data ∧
    ((standardize_address_components_local cfgUsps a1 a2 c st z).state.data = [] ∨
      ((standardize_address_components_local cfgUsps a1 a2 c st z).state.data.length = 2 ∧
        ∀ ch ∈ (standardize_address_components_local cfgUsps a1 a2 c st z).state.data,
          ch.isUpper = true) ∨
      (standardize_address_components_local cfgUsps a1 a2 c st z).state.data =
        pyUpper (pyStrip st.data)) ∧
    ((standardize_address_components_local cfgUsps a1 a2 c st z).zip.data = [] ∨
      ((standardize_address_components_local cfgUsps a1 a2 c st z).zip.data.length = 5 ∧
        ∀ ch ∈ (standardize_address_components_local cfgUsps a1 a2 c st z).zip.data,
          ch.isDigit = true) ∨
      (∃ x y, (standardize_address_components_local cfgUsps a1 a2 c st z).zip.data =
          x ++ '-' :: y ∧ x.length = 5 ∧ y.length = 4 ∧
          (∀ ch ∈ x, ch.isDigit = true) ∧ (∀ ch ∈ y, ch.isDigit = true)) ∨
      ((standardize_address_components_local cfgUsps a1 a2 c st z).zip.data ≠ [] ∧
        ∀ ch ∈ (standardize_address_components_local cfgUsps a1 a2 c st z).zip.data,
          ch.isDigit = true) ∨
      ((standardize_address_components_local cfgUsps a1 a2 c st z).zip.data =
          pyStrip z.data ∧ z.data.filter Char.isDigit = [])) := by
  obtain ⟨hg1, hg2, hg3⟩ := standardize_text_fields_good cfgUsps
    (fun e he => goodText_of_B ((List.all_eq_true.mp
      (by decide : DIR_MAP.all (fun e => goodTextB e.2.data) = true)) e he))
    (fun e he => goodText_of_B ((List.all_eq_true.mp
      (by decide : SUFFIX_MAP_usps.all (fun e => goodTextB e.2.data) = true)) e he))
    a1 a2 c st z
  refine ⟨hg1, hg2, hg3, ?_, ?_⟩
  · exact standardize_state_cases STATE_MAP_full (by decide) st.data
  · exact standardize_zip_cases z.data

end AddrWork

